import Mathlib

/-!
Shallow embedding of the BLE advertisement deduplication engine (src/main.c).

The C program keeps a fixed-capacity open-addressing hash table of observed
advertisement records, keyed by the 6-byte MAC address, plus a framed window
header.  Machine integers are modelled as `Nat` with explicit reduction
`% 2^w` at every write that can overflow the corresponding C field width
(`uint8`, `uint16`, `uint32`).  Signed `int8` RSSI values are modelled as `Int`.
The two bounded C loops (the 6-byte hash loop and the do/while linear probe,
which revisits its starting index after exactly `HASH_SIZE` increments) are
modelled by structural recursion, the probe with fuel `HASH_SIZE`.
-/

set_option maxRecDepth 200000

/-- `HASH_SIZE` in src/main.c (1024 slots). -/
def HASH_SIZE : Nat := 1024

/-- `HASH_MASK = HASH_SIZE - 1` in src/main.c. -/
def HASH_MASK : Nat := HASH_SIZE - 1

/-- `MAX_DEVICES` in src/main.c. -/
def MAX_DEVICES : Nat := 1024

/-- `struct device_data`: one per-device observation record.
`addr` models the 6-byte `uint8_t addr[6]`, `data` the 31-byte
`uint8_t data[31]`; `rssi` is the signed `int8_t` field. -/
structure DeviceData where
  addr : List Nat
  addr_type : Nat
  adv_type : Nat
  rssi : Int
  data_len : Nat
  data : List Nat
  n_adv : Nat
deriving DecidableEq

/-- `enum entry_state` of a hash-table slot. -/
inductive EntryState
  | empty
  | occupied
  | deleted
deriving DecidableEq

/-- `struct hash_entry`: slot state plus the stored record. -/
structure HashEntry where
  state : EntryState
  device : DeviceData
deriving DecidableEq

/-- `struct buffer_header`: 4 sync bytes, `uint8_t sequence`,
`uint16_t n_adv_raw`, `uint16_t n_mac`. -/
structure BufferHeader where
  header : List Nat
  sequence : Nat
  n_adv_raw : Nat
  n_mac : Nat
deriving DecidableEq

/-- The program's mutable static state: `hash_table`, `buffer_header`,
`buffer_active`, `msg_sequence` (`uint8_t`), `hash_entries` (`uint16_t`).
(`uart_dev` is I/O only and does not affect the modelled state.) -/
structure SysState where
  hash_table : List HashEntry
  buffer_header : BufferHeader
  buffer_active : Bool
  msg_sequence : Nat
  hash_entries : Nat
deriving DecidableEq

/-- An all-zero `struct device_data`, as produced by `memset(..., 0, ...)`. -/
def zeroDevice : DeviceData :=
  { addr := List.replicate 6 0, addr_type := 0, adv_type := 0, rssi := 0,
    data_len := 0, data := List.replicate 31 0, n_adv := 0 }

/-- An all-zero `struct hash_entry` (`ENTRY_EMPTY` is the 0 enum value). -/
def emptyEntry : HashEntry := { state := .empty, device := zeroDevice }

/-- Slot `i` of the table (C array access `hash_table[i]`). -/
def slotAt (s : SysState) (i : Nat) : HashEntry :=
  s.hash_table.getD i emptyEntry

/-- One iteration of the `hash_mac` loop:
`hash = (hash << 5) + hash + mac[i]` in `uint32_t` arithmetic. -/
def hashStep (h b : Nat) : Nat := ((h <<< 5) + h + b) % 4294967296

/-- `hash_mac`: base-33 string hash of the 6 MAC bytes, masked to the table. -/
def hash_mac (mac : List Nat) : Nat := (mac.foldl hashStep 0) &&& HASH_MASK

/-- The state mutation of the insertion branch of `find_or_add_device`:
tag the slot `ENTRY_OCCUPIED`, `memcpy` the MAC, zero `n_adv`, and increment
`hash_entries` and `buffer_header.n_mac` (both `uint16_t`). -/
def insertAt (s : SysState) (mac : List Nat) (index : Nat) : SysState :=
  let e := slotAt s index
  { s with
    hash_table := s.hash_table.set index
      { state := .occupied, device := { e.device with addr := mac, n_adv := 0 } },
    hash_entries := (s.hash_entries + 1) % 65536,
    buffer_header := { s.buffer_header with
      n_mac := (s.buffer_header.n_mac + 1) % 65536 } }

/-- Body of the `do { ... } while (index != original_index)` probe loop of
`find_or_add_device`.  The loop increments `index` modulo `HASH_SIZE` and
stops when it returns to `original_index`, i.e. after at most `HASH_SIZE`
iterations, so it is modelled with fuel `HASH_SIZE`; exhausted fuel is the
loop's wrap-around exit (`return NULL`).  On success the result carries the
slot index standing for the returned `struct device_data *`. -/
def findOrAddGo (s : SysState) (mac : List Nat) : Nat → Nat → Option Nat × SysState
  | _, 0 => (none, s)
  | index, fuel + 1 =>
    if (slotAt s index).state = .occupied ∧ (slotAt s index).device.addr = mac then
      (some index, s)
    else if (slotAt s index).state ≠ .occupied then
      if s.buffer_header.n_mac ≥ MAX_DEVICES then (none, s)
      else if s.hash_entries ≥ MAX_DEVICES then (none, s)
      else (some index, insertAt s mac index)
    else
      findOrAddGo s mac ((index + 1) &&& HASH_MASK) fuel

/-- `find_or_add_device`: probe from the hashed home slot. -/
def find_or_add_device (s : SysState) (mac : List Nat) : Option Nat × SysState :=
  findOrAddGo s mac (hash_mac mac) HASH_SIZE

/-- One advertisement event as delivered to `scan_cb`: the `bt_addr_le_t`
(6-byte `addr->a.val` plus `addr->type`), RSSI, advertisement type, and the
`net_buf_simple` payload bytes (`buf->data`, length `buf->len`). -/
structure ScanEvent where
  addr : List Nat
  addr_type : Nat
  rssi : Int
  adv_type : Nat
  data : List Nat
deriving DecidableEq

/-- `buffer_header.n_adv_raw++` (`uint16_t`), the unconditional raw-event
count bump at the top of `scan_cb`'s active path. -/
def bumpRaw (s : SysState) : SysState :=
  { s with buffer_header := { s.buffer_header with
      n_adv_raw := (s.buffer_header.n_adv_raw + 1) % 65536 } }

/-- The per-observation record update of `scan_cb`: overwrite `addr_type`,
`adv_type`, `rssi`; `data_len = MIN(buf->len, 31)`; `memset` the 31-byte
payload to zero then `memcpy` `data_len` bytes; `n_adv++` (`uint8_t`). -/
def updateDevice (d : DeviceData) (ev : ScanEvent) : DeviceData :=
  let dl := min ev.data.length 31
  { d with
    addr_type := ev.addr_type, adv_type := ev.adv_type, rssi := ev.rssi,
    data_len := dl,
    data := ev.data.take dl ++ List.replicate (31 - dl) 0,
    n_adv := (d.n_adv + 1) % 256 }

/-- `scan_cb`: drop the event when the window is inactive; otherwise bump
`n_adv_raw`, look up or insert the device, and on success merge the
observation into the returned record. -/
def scan_cb (s : SysState) (ev : ScanEvent) : SysState :=
  if s.buffer_active = false then s
  else
    let s1 := bumpRaw s
    match find_or_add_device s1 ev.addr with
    | (none, s2) => s2
    | (some idx, s2) =>
      let e := slotAt s2 idx
      let e' : HashEntry := ⟨e.state, updateDevice e.device ev⟩
      { s2 with hash_table := s2.hash_table.set idx e' }

/-- Two's-complement byte of a stored `int8_t` value, as read back by the
byte-wise copy in `send_buffer`. -/
def byteOfInt (r : Int) : Nat := (r % 256).toNat

/-- The 9 bytes of the packed `struct buffer_header`, little-endian
`uint16_t` fields (the Cortex-M host order). -/
def serializeHeader (h : BufferHeader) : List Nat :=
  h.header ++
    [h.sequence % 256,
     h.n_adv_raw % 256, h.n_adv_raw / 256 % 256,
     h.n_mac % 256, h.n_mac / 256 % 256]

/-- The 42 bytes of a packed `struct device_data`. -/
def serializeDevice (d : DeviceData) : List Nat :=
  d.addr ++ [d.addr_type % 256, d.adv_type % 256, byteOfInt d.rssi, d.data_len % 256]
    ++ d.data ++ [d.n_adv % 256]

/-- Test used by `send_buffer` and the table book-keeping: is a slot
`ENTRY_OCCUPIED`? -/
def isOcc (e : HashEntry) : Bool := decide (e.state = EntryState.occupied)

/-- `send_buffer`: emit the header bytes, then the bytes of every
`ENTRY_OCCUPIED` record in slot order. -/
def send_buffer (s : SysState) : List Nat :=
  serializeHeader s.buffer_header ++
    ((s.hash_table.filter isOcc).map (fun e => serializeDevice e.device)).flatten

/-- `reset_buffer`: zero the header and the whole table, rewrite the sync
pattern, assign `sequence = msg_sequence++` (`uint8_t`), zero the counters. -/
def reset_buffer (s : SysState) : SysState :=
  { hash_table := List.replicate HASH_SIZE emptyEntry,
    buffer_header := { header := List.replicate 4 0x55,
                       sequence := s.msg_sequence % 256,
                       n_adv_raw := 0, n_mac := 0 },
    buffer_active := s.buffer_active,
    msg_sequence := (s.msg_sequence + 1) % 256,
    hash_entries := 0 }

/-- `sampling_timer_handler`: clear the active flag, send the frame, reset
the buffer, set the active flag.  Returns the emitted frame and the new
state. -/
def sampling_timer_handler (s : SysState) : List Nat × SysState :=
  let s0 := { s with buffer_active := false }
  (send_buffer s0, { reset_buffer s0 with buffer_active := true })

/-- The zero-initialised static state at program load. -/
def zeroState : SysState :=
  { hash_table := List.replicate HASH_SIZE emptyEntry,
    buffer_header := { header := List.replicate 4 0, sequence := 0,
                       n_adv_raw := 0, n_mac := 0 },
    buffer_active := false, msg_sequence := 0, hash_entries := 0 }

/-- The state after `main`'s `reset_buffer(); buffer_active = true;`,
before the first event and the first timer tick. -/
def startState : SysState := { reset_buffer zeroState with buffer_active := true }

/-- A freshly reset capturing window whose header carries sequence number
`q`: this is `startState` for `q = 0` and the post-flush state of every
`sampling_timer_handler` otherwise. -/
def freshWindow (q : Nat) : SysState :=
  { hash_table := List.replicate HASH_SIZE emptyEntry,
    buffer_header := { header := List.replicate 4 0x55, sequence := q % 256,
                       n_adv_raw := 0, n_mac := 0 },
    buffer_active := true,
    msg_sequence := (q + 1) % 256,
    hash_entries := 0 }

/-- Well-formedness of an incoming event: the C callback delivers a 6-byte
MAC, `uint8_t` classification fields, an `int8_t` RSSI and `uint8_t` payload
bytes. -/
def EventWF (ev : ScanEvent) : Prop :=
  ev.addr.length = 6 ∧ (∀ b ∈ ev.addr, b < 256) ∧
  ev.addr_type < 256 ∧ ev.adv_type < 256 ∧
  -128 ≤ ev.rssi ∧ ev.rssi < 128 ∧ (∀ b ∈ ev.data, b < 256)

instance (ev : ScanEvent) : Decidable (EventWF ev) := by
  unfold EventWF; infer_instance

/-- States reachable by the program: the post-`main`-init state, closed under
well-formed scan events and timer flushes. -/
inductive Reachable : SysState → Prop
  | init : Reachable startState
  | scan {s : SysState} (ev : ScanEvent) :
      Reachable s → EventWF ev → Reachable (scan_cb s ev)
  | flush {s : SysState} :
      Reachable s → Reachable (sampling_timer_handler s).2

/-- Number of `ENTRY_OCCUPIED` slots. -/
def countOccupied (l : List HashEntry) : Nat := (l.filter isOcc).length

/-- The occupied entries holding identifier `a`. -/
def aEntries (s : SysState) (a : List Nat) : List HashEntry :=
  s.hash_table.filter (fun e => decide (e.state = EntryState.occupied ∧ e.device.addr = a))

/-- Along a run of events, `find_or_add_device` never fails for identifier
`a`: whenever the next event carries `a`, the lookup-or-insert performed by
`scan_cb` (on the raw-bumped state) succeeds. -/
def NoFullA (a : List Nat) : SysState → List ScanEvent → Prop
  | _, [] => True
  | s, ev :: evs =>
    (ev.addr = a → (find_or_add_device (bumpRaw s) ev.addr).1 ≠ none) ∧
    NoFullA a (scan_cb s ev) evs

instance instDecNoFullA (a : List Nat) :
    ∀ (s : SysState) (evs : List ScanEvent), Decidable (NoFullA a s evs)
  | _, [] => .isTrue trivial
  | s, ev :: evs =>
    haveI : Decidable (NoFullA a (scan_cb s ev) evs) :=
      instDecNoFullA a (scan_cb s ev) evs
    instDecidableAnd

/-- Specification-level merge of one observation of identifier `a` into the
(possibly absent) current record for `a`. -/
def mergeObs (cur : Option DeviceData) (a : List Nat) (ev : ScanEvent) : DeviceData :=
  let dl := min ev.data.length 31
  { addr := a, addr_type := ev.addr_type, adv_type := ev.adv_type, rssi := ev.rssi,
    data_len := dl,
    data := ev.data.take dl ++ List.replicate (31 - dl) 0,
    n_adv := ((match cur with | none => 0 | some d => d.n_adv) + 1) % 256 }

/-- Specification-level evolution of the record for `a` along an event run. -/
def runA (a : List Nat) (cur : Option DeviceData) (evs : List ScanEvent) :
    Option DeviceData :=
  evs.foldl (fun c ev => if ev.addr = a then some (mergeObs c a ev) else c) cur

/-- The status of identifier `a` in the table: either absent from every
occupied slot, or present as record `d` in exactly one slot. -/
def AState (s : SysState) (a : List Nat) : Option DeviceData → Prop
  | none => ∀ i, i < HASH_SIZE → (slotAt s i).state = .occupied →
      (slotAt s i).device.addr ≠ a
  | some d => d.addr = a ∧ ∃ i, i < HASH_SIZE ∧ slotAt s i = ⟨.occupied, d⟩ ∧
      ∀ j, j < HASH_SIZE → j ≠ i → (slotAt s j).state = .occupied →
        (slotAt s j).device.addr ≠ a

/-- A recorded device equals what the spec says the most recent observation
leaves behind. -/
def matchesEvent (d : DeviceData) (ev : ScanEvent) : Prop :=
  d.addr_type = ev.addr_type ∧ d.adv_type = ev.adv_type ∧ d.rssi = ev.rssi ∧
  d.data_len = min ev.data.length 31 ∧
  d.data = ev.data.take (min ev.data.length 31) ++
    List.replicate (31 - min ev.data.length 31) 0

/-- Well-formedness of a stored record (field widths of the packed struct
plus the zero-fill property of its payload tail). -/
def DeviceWF (d : DeviceData) : Prop :=
  d.addr.length = 6 ∧ (∀ b ∈ d.addr, b < 256) ∧
  d.addr_type < 256 ∧ d.adv_type < 256 ∧
  -128 ≤ d.rssi ∧ d.rssi < 128 ∧
  d.data_len ≤ 31 ∧ d.data.length = 31 ∧ (∀ b ∈ d.data, b < 256) ∧
  d.n_adv < 256 ∧
  (∀ i, i < 31 → d.data_len ≤ i → d.data.getD i 0 = 0)

/-- The probe offset at which slot `i` is reached from home slot `h`:
the unique `k < HASH_SIZE` with `(h + k) % HASH_SIZE = i`. -/
def probeDist (h i : Nat) : Nat := (i + HASH_SIZE - h % HASH_SIZE) % HASH_SIZE

/-- The probe loop steps past slot `i` while searching for `mac`. -/
def continuesAt (s : SysState) (mac : List Nat) (i : Nat) : Prop :=
  (slotAt s i).state = .occupied ∧ (slotAt s i).device.addr ≠ mac

/-- Reachability invariant: table geometry, counter synchronisation, header
shape, per-record well-formedness, the linear-probing path invariant, and
distinctness of stored identifiers. -/
structure SysInv (s : SysState) : Prop where
  len : s.hash_table.length = HASH_SIZE
  header4 : s.buffer_header.header = List.replicate 4 0x55
  seqLt : s.buffer_header.sequence < 256
  msgSeq : s.msg_sequence = (s.buffer_header.sequence + 1) % 256
  rawLt : s.buffer_header.n_adv_raw < 65536
  nmac : s.buffer_header.n_mac = countOccupied s.hash_table
  hent : s.hash_entries = countOccupied s.hash_table
  active : s.buffer_active = true
  occWF : ∀ i, i < HASH_SIZE → (slotAt s i).state = .occupied →
    DeviceWF (slotAt s i).device
  emptyZero : ∀ i, i < HASH_SIZE → (slotAt s i).state ≠ .occupied →
    slotAt s i = emptyEntry
  probe : ∀ i, i < HASH_SIZE → (slotAt s i).state = .occupied →
    ∀ k, k < probeDist (hash_mac (slotAt s i).device.addr) i →
      (slotAt s ((hash_mac (slotAt s i).device.addr + k) % HASH_SIZE)).state = .occupied
  distinct : ∀ i, i < HASH_SIZE → ∀ j, j < HASH_SIZE → i ≠ j →
    (slotAt s i).state = .occupied → (slotAt s j).state = .occupied →
    (slotAt s i).device.addr ≠ (slotAt s j).device.addr

/-- Decode a 16-bit little-endian field. -/
def decodeU16 (lo hi : Nat) : Nat := lo + 256 * hi

/-- Decode a stored `int8_t` from its two's-complement byte. -/
def decodeRssi (b : Nat) : Int := if b < 128 then (b : Int) else (b : Int) - 256

/-- Decode one 42-byte record at the field offsets of the wire layout. -/
def decodeRecord (bytes : List Nat) : DeviceData :=
  { addr := bytes.take 6,
    addr_type := bytes.getD 6 0,
    adv_type := bytes.getD 7 0,
    rssi := decodeRssi (bytes.getD 8 0),
    data_len := bytes.getD 9 0,
    data := (bytes.drop 10).take 31,
    n_adv := bytes.getD 41 0 }

/-- Decode exactly `n` consecutive 42-byte records, requiring the byte
stream to end right after them. -/
def decodeRecords : Nat → List Nat → Option (List DeviceData)
  | 0, rest => if rest = [] then some [] else none
  | n + 1, bytes =>
    if bytes.length < 42 then none
    else
      match decodeRecords n (bytes.drop 42) with
      | some ds => some (decodeRecord (bytes.take 42) :: ds)
      | none => none

/-- Decode a whole frame by the documented layout: check the sync pattern,
read the header fields, then read `unique_count` records. -/
def decodeFrame (bytes : List Nat) : Option (Nat × Nat × Nat × List DeviceData) :=
  if bytes.take 4 = [0x55, 0x55, 0x55, 0x55] ∧ 9 ≤ bytes.length then
    match decodeRecords (decodeU16 (bytes.getD 7 0) (bytes.getD 8 0)) (bytes.drop 9) with
    | some ds =>
      some (bytes.getD 4 0,
            decodeU16 (bytes.getD 5 0) (bytes.getD 6 0),
            decodeU16 (bytes.getD 7 0) (bytes.getD 8 0), ds)
    | none => none
  else none

/-- The devices of the occupied slots, in slot order, as recorded. -/
def occupiedDevices (s : SysState) : List DeviceData :=
  (s.hash_table.filter isOcc).map (fun e => e.device)

/-- Run a sequence of windows from a state: in each window process its
events, then flush; collect the emitted frames. -/
def runWindows (s : SysState) : List (List ScanEvent) → List (List Nat)
  | [] => []
  | w :: ws =>
    let s1 := w.foldl scan_cb s
    (sampling_timer_handler s1).1 :: runWindows (sampling_timer_handler s1).2 ws

/-- The state `scan_cb` produces on a lookup hit at slot `i`: only the raw
counter and the record in slot `i` change. -/
def hitResult (s : SysState) (ev : ScanEvent) (i : Nat) : SysState :=
  { bumpRaw s with hash_table :=
      s.hash_table.set i ⟨.occupied, updateDevice (slotAt s i).device ev⟩ }

/-- The state `scan_cb` produces on an insertion at slot `i`: the raw
counter, both occupancy counters, and slot `i` change. -/
def insResult (s : SysState) (ev : ScanEvent) (i : Nat) : SysState :=
  { hash_table := s.hash_table.set i
      ⟨.occupied,
       updateDevice { (slotAt s i).device with addr := ev.addr, n_adv := 0 } ev⟩,
    buffer_header := { s.buffer_header with
      n_adv_raw := (s.buffer_header.n_adv_raw + 1) % 65536,
      n_mac := (s.buffer_header.n_mac + 1) % 65536 },
    buffer_active := s.buffer_active,
    msg_sequence := s.msg_sequence,
    hash_entries := (s.hash_entries + 1) % 65536 }

/-- Number of events of a run carrying identifier `a`. -/
def countA (a : List Nat) (evs : List ScanEvent) : Nat :=
  (evs.filter (fun ev => decide (ev.addr = a))).length

/-- The record the spec predicts for an identifier observed `n` times whose
most recent observation is `ev`. -/
def mergeObsFinal (a : List Nat) (ev : ScanEvent) (n : Nat) : DeviceData :=
  { addr := a, addr_type := ev.addr_type, adv_type := ev.adv_type, rssi := ev.rssi,
    data_len := min ev.data.length 31,
    data := ev.data.take (min ev.data.length 31) ++
      List.replicate (31 - min ev.data.length 31) 0,
    n_adv := n % 256 }

/-- A concrete well-formed event used for witnesses and counterexamples. -/
def ev0 : ScanEvent :=
  { addr := List.replicate 6 0, addr_type := 1, rssi := -40, adv_type := 2,
    data := [7, 8, 9] }

/-- The identifier of `ev0`. -/
def a0 : List Nat := List.replicate 6 0

/-- 256 copies of `ev0`: one window observing the same identifier 256
times. -/
def evs256 : List ScanEvent := List.replicate 256 ev0

/-- A state whose unique-identifier counter is at capacity: the next free
slot the probe reaches makes `find_or_add_device` fail with `Full`. -/
def fullState : SysState :=
  { startState with buffer_header :=
      { startState.buffer_header with n_mac := 1024 } }

/-! ### Arithmetic and list helper lemmas -/

theorem and_mask_eq_mod (n : Nat) : n &&& HASH_MASK = n % HASH_SIZE := by
  have h := Nat.and_pow_two_sub_one_eq_mod n 10
  norm_num at h
  exact h

theorem hash_mac_lt (mac : List Nat) : hash_mac mac < HASH_SIZE := by
  rw [hash_mac, and_mask_eq_mod]
  exact Nat.mod_lt _ (by norm_num [HASH_SIZE])

theorem probeDist_lt (h i : Nat) : probeDist h i < HASH_SIZE := by
  unfold probeDist
  exact Nat.mod_lt _ (by norm_num [HASH_SIZE])

theorem add_probeDist (h i : Nat) (hi : i < HASH_SIZE) :
    (h + probeDist h i) % HASH_SIZE = i := by
  unfold probeDist HASH_SIZE at *
  omega

theorem probeDist_add (h k : Nat) (hk : k < HASH_SIZE) :
    probeDist h ((h + k) % HASH_SIZE) = k := by
  unfold probeDist HASH_SIZE at *
  omega

theorem probe_index_inj {h k k' : Nat} (hk : k < HASH_SIZE) (hk' : k' < HASH_SIZE)
    (heq : (h + k) % HASH_SIZE = (h + k') % HASH_SIZE) : k = k' := by
  unfold HASH_SIZE at *
  omega

theorem getD_set_self {α : Type} (l : List α) (i : Nat) (E d : α) (h : i < l.length) :
    (l.set i E).getD i d = E := by
  simp [List.getD_eq_getElem?_getD, List.getElem?_set_self h]

theorem getD_set_ne {α : Type} (l : List α) (i j : Nat) (E d : α) (h : i ≠ j) :
    (l.set i E).getD j d = l.getD j d := by
  simp [List.getD_eq_getElem?_getD, List.getElem?_set_ne h]

theorem getD_eq_getElem {α : Type} (l : List α) (d : α) {i : Nat} (h : i < l.length) :
    l.getD i d = l[i] := by
  simp [List.getD_eq_getElem?_getD, List.getElem?_eq_getElem h]

theorem getD_replicate {α : Type} (c d : α) {n i : Nat} (h : i < n) :
    (List.replicate n c).getD i d = c := by
  rw [getD_eq_getElem (h := by simpa using h)]
  simp

theorem countOccupied_le (l : List HashEntry) : countOccupied l ≤ l.length := by
  simpa [countOccupied] using List.length_filter_le isOcc l

theorem countOccupied_set_of_occ :
    ∀ (l : List HashEntry) (i : Nat) (E : HashEntry), i < l.length →
      isOcc (l.getD i emptyEntry) = true → isOcc E = true →
      countOccupied (l.set i E) = countOccupied l
  | [], i, E, hi, _, _ => absurd hi (by simp)
  | x :: xs, 0, E, _, hold, hE => by
    simp only [List.getD_cons_zero] at hold
    simp [countOccupied, List.filter_cons, hold, hE]
  | x :: xs, i + 1, E, hi, hold, hE => by
    simp only [List.getD_cons_succ] at hold
    have ih := countOccupied_set_of_occ xs i E (by simpa using hi) hold hE
    simp only [List.set_cons_succ, countOccupied, List.filter_cons]
    by_cases hx : isOcc x <;> simp [hx, countOccupied] at ih ⊢ <;> omega

theorem countOccupied_set_of_free :
    ∀ (l : List HashEntry) (i : Nat) (E : HashEntry), i < l.length →
      isOcc (l.getD i emptyEntry) = false → isOcc E = true →
      countOccupied (l.set i E) = countOccupied l + 1
  | [], i, E, hi, _, _ => absurd hi (by simp)
  | x :: xs, 0, E, _, hold, hE => by
    simp only [List.getD_cons_zero] at hold
    simp [countOccupied, List.filter_cons, hold, hE]
  | x :: xs, i + 1, E, hi, hold, hE => by
    simp only [List.getD_cons_succ] at hold
    have ih := countOccupied_set_of_free xs i E (by simpa using hi) hold hE
    simp only [List.set_cons_succ, countOccupied, List.filter_cons]
    by_cases hx : isOcc x <;> simp [hx, countOccupied] at ih ⊢ <;> omega

theorem countOccupied_eq_length_iff (l : List HashEntry) :
    countOccupied l = l.length ↔ ∀ e ∈ l, isOcc e := by
  simpa [countOccupied] using List.filter_length_eq_length (p := isOcc) (l := l)

theorem filter_eq_singleton_of_unique {α : Type} {p : α → Bool} :
    ∀ (l : List α) (i : Nat) (hi : i < l.length), p l[i] = true →
      (∀ j, (hj : j < l.length) → p l[j] = true → j = i) → l.filter p = [l[i]]
  | [], i, hi, _, _ => absurd hi (by simp)
  | x :: xs, 0, _, hp, huniq => by
    have hxs : ∀ a ∈ xs, ¬ p a = true := by
      intro a ha hpa
      obtain ⟨j, hj, rfl⟩ := List.mem_iff_getElem.mp ha
      exact absurd (huniq (j + 1) (by simpa using hj) (by simpa using hpa)) (by omega)
    simp only [List.getElem_cons_zero] at hp ⊢
    rw [List.filter_cons_of_pos hp, List.filter_eq_nil.mpr hxs]
  | x :: xs, i + 1, hi, hp, huniq => by
    have hx : ¬ p x = true := fun hpx =>
      absurd (huniq 0 (by simp) (by simpa using hpx)) (by omega)
    have ih := filter_eq_singleton_of_unique xs i (by simpa using hi)
      (by simpa using hp)
      (fun j hj hpj => by
        have := huniq (j + 1) (by simpa using hj) (by simpa using hpj)
        omega)
    simp only [List.getElem_cons_succ]
    rw [List.filter_cons_of_neg hx, ih]

/-! ### Characterisation of the probe loop -/

theorem findOrAddGo_stop (s : SysState) (mac : List Nat) :
    ∀ (k fuel index : Nat), index < HASH_SIZE → k < fuel →
      (∀ j, j < k → continuesAt s mac ((index + j) % HASH_SIZE)) →
      (((slotAt s ((index + k) % HASH_SIZE)).state = .occupied ∧
          (slotAt s ((index + k) % HASH_SIZE)).device.addr = mac →
          findOrAddGo s mac index fuel = (some ((index + k) % HASH_SIZE), s)) ∧
       ((slotAt s ((index + k) % HASH_SIZE)).state ≠ .occupied →
          (s.buffer_header.n_mac ≥ MAX_DEVICES ∨ s.hash_entries ≥ MAX_DEVICES →
            findOrAddGo s mac index fuel = (none, s)) ∧
          (s.buffer_header.n_mac < MAX_DEVICES → s.hash_entries < MAX_DEVICES →
            findOrAddGo s mac index fuel =
              (some ((index + k) % HASH_SIZE),
               insertAt s mac ((index + k) % HASH_SIZE))))) := by
  intro k
  induction k with
  | zero =>
    intro fuel index hidx hk _
    obtain ⟨f, rfl⟩ : ∃ f, fuel = f + 1 := ⟨fuel - 1, by omega⟩
    have hidx0 : (index + 0) % HASH_SIZE = index := by
      rw [Nat.add_zero, Nat.mod_eq_of_lt hidx]
    rw [hidx0]
    constructor
    · intro hhit
      rw [findOrAddGo, if_pos hhit]
    · intro hfree
      have hnot : ¬ ((slotAt s index).state = .occupied ∧
          (slotAt s index).device.addr = mac) := fun h => hfree h.1
      constructor
      · rintro (hge | hge)
        · rw [findOrAddGo, if_neg hnot, if_pos hfree, if_pos hge]
        · by_cases hm : s.buffer_header.n_mac ≥ MAX_DEVICES
          · rw [findOrAddGo, if_neg hnot, if_pos hfree, if_pos hm]
          · rw [findOrAddGo, if_neg hnot, if_pos hfree, if_neg hm, if_pos hge]
      · intro h1 h2
        rw [findOrAddGo, if_neg hnot, if_pos hfree, if_neg (by omega), if_neg (by omega)]
  | succ k ih =>
    intro fuel index hidx hk hcont
    obtain ⟨f, rfl⟩ : ∃ f, fuel = f + 1 := ⟨fuel - 1, by omega⟩
    have hidx0 : (index + 0) % HASH_SIZE = index := by
      rw [Nat.add_zero, Nat.mod_eq_of_lt hidx]
    have h0 := hcont 0 (by omega)
    rw [hidx0] at h0
    obtain ⟨hocc, hne⟩ := h0
    have hnot : ¬ ((slotAt s index).state = .occupied ∧
        (slotAt s index).device.addr = mac) := fun h => hne h.2
    have hnn : ¬ (slotAt s index).state ≠ .occupied := not_not.mpr hocc
    have hstep : (index + 1) &&& HASH_MASK = (index + 1) % HASH_SIZE :=
      and_mask_eq_mod _
    have hlt : (index + 1) % HASH_SIZE < HASH_SIZE :=
      Nat.mod_lt _ (by norm_num [HASH_SIZE])
    have hshift : ∀ m, ((index + 1) % HASH_SIZE + m) % HASH_SIZE =
        (index + (m + 1)) % HASH_SIZE := by
      intro m
      rw [Nat.mod_add_mod]
      congr 1
      omega
    have ih' := ih f ((index + 1) % HASH_SIZE) hlt (by omega)
      (fun j hj => by rw [hshift]; exact hcont (j + 1) (by omega))
    rw [hshift k] at ih'
    rw [findOrAddGo, if_neg hnot, if_neg hnn, hstep]
    exact ih'

theorem findOrAddGo_exhaust (s : SysState) (mac : List Nat) :
    ∀ (fuel index : Nat), index < HASH_SIZE →
      (∀ j, j < fuel → continuesAt s mac ((index + j) % HASH_SIZE)) →
      findOrAddGo s mac index fuel = (none, s) := by
  intro fuel
  induction fuel with
  | zero => intro index _ _; rfl
  | succ f ih =>
    intro index hidx hcont
    have hidx0 : (index + 0) % HASH_SIZE = index := by
      rw [Nat.add_zero, Nat.mod_eq_of_lt hidx]
    have h0 := hcont 0 (by omega)
    rw [hidx0] at h0
    obtain ⟨hocc, hne⟩ := h0
    have hnot : ¬ ((slotAt s index).state = .occupied ∧
        (slotAt s index).device.addr = mac) := fun h => hne h.2
    have hnn : ¬ (slotAt s index).state ≠ .occupied := not_not.mpr hocc
    have hstep : (index + 1) &&& HASH_MASK = (index + 1) % HASH_SIZE :=
      and_mask_eq_mod _
    have hlt : (index + 1) % HASH_SIZE < HASH_SIZE :=
      Nat.mod_lt _ (by norm_num [HASH_SIZE])
    have hshift : ∀ m, ((index + 1) % HASH_SIZE + m) % HASH_SIZE =
        (index + (m + 1)) % HASH_SIZE := by
      intro m
      rw [Nat.mod_add_mod]
      congr 1
      omega
    rw [findOrAddGo, if_neg hnot, if_neg hnn, hstep]
    exact ih _ hlt (fun j hj => by rw [hshift]; exact hcont (j + 1) (by omega))

theorem findOrAddGo_snd (s : SysState) (mac : List Nat) :
    ∀ (fuel index : Nat),
      (findOrAddGo s mac index fuel).2 = s ∨
      ∃ j, (findOrAddGo s mac index fuel).2 = insertAt s mac j := by
  intro fuel
  induction fuel with
  | zero => intro index; exact Or.inl rfl
  | succ f ih =>
    intro index
    rw [findOrAddGo]
    split
    · exact Or.inl rfl
    · split
      · split
        · exact Or.inl rfl
        · split
          · exact Or.inl rfl
          · exact Or.inr ⟨index, rfl⟩
      · exact ih _

theorem findOrAddGo_none (s : SysState) (mac : List Nat) :
    ∀ (fuel index : Nat) (s' : SysState),
      findOrAddGo s mac index fuel = (none, s') → s' = s := by
  intro fuel
  induction fuel with
  | zero =>
    intro index s' h
    have := congrArg Prod.snd h
    simpa using this.symm
  | succ f ih =>
    intro index s' h
    rw [findOrAddGo] at h
    revert h
    split
    · intro h; cases h
    · split
      · split
        · intro h; cases h; rfl
        · split
          · intro h; cases h; rfl
          · intro h; cases h
      · exact ih _ _

/-! ### Lookup trichotomy under the invariant -/

theorem slot_mem (s : SysState) {i : Nat} (hi : i < s.hash_table.length) :
    slotAt s i ∈ s.hash_table := by
  rw [slotAt, getD_eq_getElem _ _ hi]
  exact List.getElem_mem hi

theorem mem_slot (s : SysState) {e : HashEntry} (he : e ∈ s.hash_table) :
    ∃ i, i < s.hash_table.length ∧ slotAt s i = e := by
  obtain ⟨i, hi, rfl⟩ := List.mem_iff_getElem.mp he
  exact ⟨i, hi, by rw [slotAt, getD_eq_getElem _ _ hi]⟩

theorem slotAt_bumpRaw (s : SysState) (i : Nat) : slotAt (bumpRaw s) i = slotAt s i := rfl

theorem bumpRaw_inv {s : SysState} (hInv : SysInv s) : SysInv (bumpRaw s) where
  len := hInv.len
  header4 := hInv.header4
  seqLt := hInv.seqLt
  msgSeq := hInv.msgSeq
  rawLt := Nat.mod_lt _ (by norm_num)
  nmac := hInv.nmac
  hent := hInv.hent
  active := hInv.active
  occWF := hInv.occWF
  emptyZero := hInv.emptyZero
  probe := hInv.probe
  distinct := hInv.distinct

theorem find_present {s : SysState} (hInv : SysInv s) {mac : List Nat} {i : Nat}
    (hi : i < HASH_SIZE) (hocc : (slotAt s i).state = .occupied)
    (haddr : (slotAt s i).device.addr = mac) :
    find_or_add_device s mac = (some i, s) := by
  rw [find_or_add_device]
  have hhome : hash_mac (slotAt s i).device.addr = hash_mac mac := by rw [haddr]
  have hklt : probeDist (hash_mac mac) i < HASH_SIZE := probeDist_lt _ i
  have hcont : ∀ j, j < probeDist (hash_mac mac) i →
      continuesAt s mac ((hash_mac mac + j) % HASH_SIZE) := by
    intro j hj
    have hjS : j < HASH_SIZE := lt_trans hj hklt
    have hoccj : (slotAt s ((hash_mac mac + j) % HASH_SIZE)).state = .occupied := by
      have := hInv.probe i hi hocc j (by rw [hhome]; exact hj)
      rw [hhome] at this
      exact this
    refine ⟨hoccj, fun haddrj => ?_⟩
    have hne : (hash_mac mac + j) % HASH_SIZE ≠ i := by
      intro heq
      have h2 : (hash_mac mac + probeDist (hash_mac mac) i) % HASH_SIZE = i :=
        add_probeDist _ i hi
      have : j = probeDist (hash_mac mac) i :=
        probe_index_inj hjS hklt (by rw [heq, h2])
      omega
    exact hInv.distinct _ (Nat.mod_lt _ (by norm_num [HASH_SIZE])) i hi hne hoccj hocc
      (haddrj.trans haddr.symm)
  have hstop := (findOrAddGo_stop s mac (probeDist (hash_mac mac) i) HASH_SIZE
    (hash_mac mac) (hash_mac_lt mac) hklt hcont).1
  rw [add_probeDist _ i hi] at hstop
  exact hstop ⟨hocc, haddr⟩

theorem all_occupied_of_count_eq {s : SysState} (hInv : SysInv s)
    (hcnt : countOccupied s.hash_table = HASH_SIZE) :
    ∀ j, j < HASH_SIZE → (slotAt s j).state = .occupied := by
  have hall : ∀ e ∈ s.hash_table, isOcc e :=
    (countOccupied_eq_length_iff _).mp (by rw [hcnt, hInv.len])
  intro j hj
  have := hall _ (slot_mem s (by rw [hInv.len]; exact hj))
  simpa [isOcc] using this

theorem find_absent_space {s : SysState} (hInv : SysInv s) {mac : List Nat}
    (habs : ∀ j, j < HASH_SIZE → (slotAt s j).state = .occupied →
      (slotAt s j).device.addr ≠ mac)
    (hcnt : countOccupied s.hash_table < HASH_SIZE) :
    ∃ i, i < HASH_SIZE ∧ (slotAt s i).state ≠ .occupied ∧
      (∀ j, j < probeDist (hash_mac mac) i →
        (slotAt s ((hash_mac mac + j) % HASH_SIZE)).state = .occupied) ∧
      find_or_add_device s mac = (some i, insertAt s mac i) := by
  have hex : ∃ k, (slotAt s ((hash_mac mac + k) % HASH_SIZE)).state ≠ .occupied := by
    by_contra hall
    push_neg at hall
    have hallocc : ∀ j, j < HASH_SIZE → (slotAt s j).state = .occupied := by
      intro j hj
      have := hall (probeDist (hash_mac mac) j)
      rw [add_probeDist _ j hj] at this
      exact this
    have : countOccupied s.hash_table = HASH_SIZE := by
      rw [← hInv.len]
      apply (countOccupied_eq_length_iff _).mpr
      intro e he
      obtain ⟨j, hj, rfl⟩ := mem_slot s he
      simpa [isOcc] using hallocc j (by rw [← hInv.len]; exact hj)
    omega
  set k0 := Nat.find hex with hk0
  have hfree : (slotAt s ((hash_mac mac + k0) % HASH_SIZE)).state ≠ .occupied :=
    Nat.find_spec hex
  have hk0lt : k0 < HASH_SIZE := by
    by_contra hge
    push_neg at hge
    have h1024 : (slotAt s ((hash_mac mac + probeDist (hash_mac mac)
        ((hash_mac mac + k0) % HASH_SIZE)) % HASH_SIZE)).state ≠ .occupied := by
      rw [add_probeDist _ _ (Nat.mod_lt _ (by norm_num [HASH_SIZE]))]
      exact hfree
    have hlt : probeDist (hash_mac mac) ((hash_mac mac + k0) % HASH_SIZE) < k0 :=
      lt_of_lt_of_le (probeDist_lt _ _) hge
    exact Nat.find_min hex hlt h1024
  have hcont : ∀ j, j < k0 → continuesAt s mac ((hash_mac mac + j) % HASH_SIZE) := by
    intro j hj
    have hoccj : (slotAt s ((hash_mac mac + j) % HASH_SIZE)).state = .occupied := by
      have := Nat.find_min hex hj
      simpa [not_not] using this
    exact ⟨hoccj, habs _ (Nat.mod_lt _ (by norm_num [HASH_SIZE])) hoccj⟩
  have hstop := (findOrAddGo_stop s mac k0 HASH_SIZE (hash_mac mac)
    (hash_mac_lt mac) hk0lt hcont).2 hfree
  have hMD : MAX_DEVICES = HASH_SIZE := rfl
  have hins := hstop.2 (by rw [hMD, hInv.nmac]; exact hcnt)
    (by rw [hMD, hInv.hent]; exact hcnt)
  refine ⟨(hash_mac mac + k0) % HASH_SIZE, Nat.mod_lt _ (by norm_num [HASH_SIZE]),
    hfree, ?_, ?_⟩
  · intro j hj
    rw [probeDist_add _ k0 hk0lt] at hj
    exact (hcont j hj).1
  · rw [find_or_add_device]
    exact hins

theorem find_absent_full {s : SysState} (hInv : SysInv s) {mac : List Nat}
    (habs : ∀ j, j < HASH_SIZE → (slotAt s j).state = .occupied →
      (slotAt s j).device.addr ≠ mac)
    (hcnt : countOccupied s.hash_table = HASH_SIZE) :
    find_or_add_device s mac = (none, s) := by
  rw [find_or_add_device]
  apply findOrAddGo_exhaust s mac HASH_SIZE (hash_mac mac) (hash_mac_lt mac)
  intro j _
  have hocc := all_occupied_of_count_eq hInv hcnt ((hash_mac mac + j) % HASH_SIZE)
    (Nat.mod_lt _ (by norm_num [HASH_SIZE]))
  exact ⟨hocc, habs _ (Nat.mod_lt _ (by norm_num [HASH_SIZE])) hocc⟩

/-! ### Shape of one `scan_cb` step -/

theorem scan_cb_inactive {s : SysState} (ev : ScanEvent)
    (h : s.buffer_active = false) : scan_cb s ev = s := by
  rw [scan_cb, if_pos h]

theorem scan_cb_eq_none {s : SysState} {ev : ScanEvent} {s2 : SysState}
    (hact : s.buffer_active = true)
    (hfind : find_or_add_device (bumpRaw s) ev.addr = (none, s2)) :
    scan_cb s ev = s2 := by
  rw [scan_cb, if_neg (by simp [hact])]
  simp only [hfind]

theorem scan_cb_eq_some {s : SysState} {ev : ScanEvent} {i : Nat} {s2 : SysState}
    (hact : s.buffer_active = true)
    (hfind : find_or_add_device (bumpRaw s) ev.addr = (some i, s2)) :
    scan_cb s ev = { s2 with hash_table := s2.hash_table.set i ⟨(slotAt s2 i).state, updateDevice (slotAt s2 i).device ev⟩ } := by
  rw [scan_cb, if_neg (by simp [hact])]
  simp only [hfind]

theorem scan_cb_hit_eq {s : SysState} {ev : ScanEvent} {i : Nat}
    (hact : s.buffer_active = true)
    (hocc : (slotAt s i).state = .occupied)
    (hfind : find_or_add_device (bumpRaw s) ev.addr = (some i, bumpRaw s)) :
    scan_cb s ev = hitResult s ev i := by
  rw [scan_cb_eq_some hact hfind]
  have hslot : slotAt (bumpRaw s) i = slotAt s i := rfl
  rw [hitResult, hslot, hocc]
  rfl

theorem scan_cb_ins_eq {s : SysState} {ev : ScanEvent} {i : Nat}
    (hInv : SysInv s) (hi : i < HASH_SIZE)
    (hfind : find_or_add_device (bumpRaw s) ev.addr =
      (some i, insertAt (bumpRaw s) ev.addr i)) :
    scan_cb s ev = insResult s ev i := by
  rw [scan_cb_eq_some hInv.active hfind]
  have hi' : i < (bumpRaw s).hash_table.length := by
    show i < s.hash_table.length
    rw [hInv.len]
    exact hi
  have hslot2 : slotAt (insertAt (bumpRaw s) ev.addr i) i =
      ⟨.occupied, { (slotAt s i).device with addr := ev.addr, n_adv := 0 }⟩ := by
    rw [insertAt]
    exact getD_set_self _ _ _ _ hi'
  rw [hslot2]
  show ({ insertAt (bumpRaw s) ev.addr i with
    hash_table := (insertAt (bumpRaw s) ev.addr i).hash_table.set i
      (⟨.occupied, updateDevice { (slotAt s i).device with addr := ev.addr, n_adv := 0 } ev⟩ : HashEntry) } : SysState) = insResult s ev i
  have htbl : (insertAt (bumpRaw s) ev.addr i).hash_table =
      s.hash_table.set i (⟨.occupied, { (slotAt s i).device with addr := ev.addr, n_adv := 0 }⟩ : HashEntry) := rfl
  rw [htbl, List.set_set]
  rfl

theorem scan_cases {s : SysState} (hInv : SysInv s) (ev : ScanEvent) :
    (scan_cb s ev = bumpRaw s ∧
       (find_or_add_device (bumpRaw s) ev.addr).1 = none ∧
       (∀ j, j < HASH_SIZE → (slotAt s j).state = .occupied →
         (slotAt s j).device.addr ≠ ev.addr) ∧
       countOccupied s.hash_table = HASH_SIZE) ∨
    (∃ i, i < HASH_SIZE ∧ (slotAt s i).state = .occupied ∧
       (slotAt s i).device.addr = ev.addr ∧
       (find_or_add_device (bumpRaw s) ev.addr).1 = some i ∧
       scan_cb s ev = hitResult s ev i) ∨
    (∃ i, i < HASH_SIZE ∧ (slotAt s i).state ≠ .occupied ∧
       (∀ j, j < HASH_SIZE → (slotAt s j).state = .occupied →
         (slotAt s j).device.addr ≠ ev.addr) ∧
       (∀ j, j < probeDist (hash_mac ev.addr) i →
         (slotAt s ((hash_mac ev.addr + j) % HASH_SIZE)).state = .occupied) ∧
       countOccupied s.hash_table < HASH_SIZE ∧
       (find_or_add_device (bumpRaw s) ev.addr).1 = some i ∧
       scan_cb s ev = insResult s ev i) := by
  have hact : s.buffer_active = true := hInv.active
  have hInv1 : SysInv (bumpRaw s) := bumpRaw_inv hInv
  by_cases hp : ∃ i, i < HASH_SIZE ∧ (slotAt s i).state = .occupied ∧
      (slotAt s i).device.addr = ev.addr
  · obtain ⟨i, hi, hocc, haddr⟩ := hp
    have hfind : find_or_add_device (bumpRaw s) ev.addr = (some i, bumpRaw s) :=
      find_present hInv1 hi hocc haddr
    exact Or.inr (Or.inl ⟨i, hi, hocc, haddr, by rw [hfind],
      scan_cb_hit_eq hact hocc hfind⟩)
  · push_neg at hp
    have habs : ∀ j, j < HASH_SIZE → (slotAt s j).state = .occupied →
        (slotAt s j).device.addr ≠ ev.addr := fun j hj hocc => hp j hj hocc
    have habs1 : ∀ j, j < HASH_SIZE → (slotAt (bumpRaw s) j).state = .occupied →
        (slotAt (bumpRaw s) j).device.addr ≠ ev.addr := habs
    have hle : countOccupied s.hash_table ≤ HASH_SIZE := by
      have := countOccupied_le s.hash_table
      rw [hInv.len] at this
      exact this
    rcases lt_or_eq_of_le hle with hlt | heq
    · obtain ⟨i, hi, hfree, hpath, hfind⟩ := find_absent_space hInv1 habs1 hlt
      exact Or.inr (Or.inr ⟨i, hi, hfree, habs, hpath, hlt, by rw [hfind],
        scan_cb_ins_eq hInv hi hfind⟩)
    · have hfind := find_absent_full hInv1 habs1 heq
      exact Or.inl ⟨scan_cb_eq_none hact hfind, by rw [hfind], habs, heq⟩

/-! ### Invariant preservation -/

theorem updateDevice_addr (d : DeviceData) (ev : ScanEvent) :
    (updateDevice d ev).addr = d.addr := rfl

theorem isOcc_iff (e : HashEntry) : isOcc e = true ↔ e.state = .occupied := by
  simp [isOcc]

theorem updateDevice_wf {d : DeviceData} {ev : ScanEvent}
    (hd6 : d.addr.length = 6) (hdb : ∀ b ∈ d.addr, b < 256) (hwf : EventWF ev) :
    DeviceWF (updateDevice d ev) := by
  obtain ⟨_, _, ht, hv, hr1, hr2, hdata⟩ := hwf
  have hdl : min ev.data.length 31 ≤ 31 := min_le_right _ _
  have htk : (ev.data.take (min ev.data.length 31)).length = min ev.data.length 31 := by
    rw [List.length_take]
    omega
  refine ⟨hd6, hdb, ht, hv, hr1, hr2, hdl, ?_, ?_, Nat.mod_lt _ (by norm_num), ?_⟩
  · show (ev.data.take (min ev.data.length 31) ++
      List.replicate (31 - min ev.data.length 31) 0).length = 31
    rw [List.length_append, htk, List.length_replicate]
    omega
  · intro b hb
    rcases List.mem_append.mp hb with h | h
    · exact hdata b (List.take_subset _ _ h)
    · rw [List.eq_of_mem_replicate h]
      norm_num
  · intro i hi hle
    have hle' : min ev.data.length 31 ≤ i := hle
    show (ev.data.take (min ev.data.length 31) ++
      List.replicate (31 - min ev.data.length 31) 0).getD i 0 = 0
    rw [List.getD_eq_getElem?_getD, List.getElem?_append_right (by rw [htk]; exact hle')]
    rw [htk, List.getElem?_replicate]
    have hlt2 : i - min ev.data.length 31 < 31 - min ev.data.length 31 := by omega
    simp [hlt2]

theorem scan_inv {s : SysState} (hInv : SysInv s) {ev : ScanEvent}
    (hwf : EventWF ev) : SysInv (scan_cb s ev) := by
  rcases scan_cases hInv ev with ⟨heq, _, _, _⟩ | ⟨i, hi, hocc, haddr, _, heq⟩ |
    ⟨i, hi, hfree, habs, hpath, hcnt, _, heq⟩
  · rw [heq]
    exact bumpRaw_inv hInv
  · -- lookup hit: slot i is rewritten in place, states and identifiers unchanged
    rw [heq]
    have hil : i < s.hash_table.length := by rw [hInv.len]; exact hi
    have hslot : ∀ m, slotAt (hitResult s ev i) m =
        if m = i then ⟨.occupied, updateDevice (slotAt s i).device ev⟩ else slotAt s m := by
      intro m
      by_cases hm : m = i
      · subst hm
        simp only [if_pos rfl]
        exact getD_set_self _ _ _ _ hil
      · simp only [if_neg hm]
        exact getD_set_ne _ _ _ _ _ (fun h => hm h.symm)
    have hstate : ∀ m, (slotAt (hitResult s ev i) m).state = (slotAt s m).state := by
      intro m
      rw [hslot m]
      by_cases hm : m = i
      · rw [if_pos hm, hm]
        exact hocc.symm
      · rw [if_neg hm]
    have haddr2 : ∀ m, (slotAt (hitResult s ev i) m).device.addr =
        (slotAt s m).device.addr := by
      intro m
      rw [hslot m]
      by_cases hm : m = i
      · rw [if_pos hm, hm]
        exact updateDevice_addr _ _
      · rw [if_neg hm]
    have hcount : countOccupied (hitResult s ev i).hash_table =
        countOccupied s.hash_table := by
      show countOccupied (s.hash_table.set i _) = _
      refine countOccupied_set_of_occ _ _ _ hil ?_ (by simp [isOcc])
      show isOcc (slotAt s i) = true
      simp [isOcc, hocc]
    refine ⟨?_, hInv.header4, hInv.seqLt, hInv.msgSeq, Nat.mod_lt _ (by norm_num),
      ?_, ?_, hInv.active, ?_, ?_, ?_, ?_⟩
    · show (s.hash_table.set i _).length = HASH_SIZE
      rw [List.length_set]
      exact hInv.len
    · show s.buffer_header.n_mac = _
      rw [hcount]
      exact hInv.nmac
    · show s.hash_entries = _
      rw [hcount]
      exact hInv.hent
    · intro j hj hoccj
      rw [hslot j] at hoccj ⊢
      by_cases hm : j = i
      · rw [if_pos hm]
        have hdwf := hInv.occWF i hi hocc
        exact updateDevice_wf hdwf.1 hdwf.2.1 hwf
      · rw [if_neg hm] at hoccj ⊢
        exact hInv.occWF j hj hoccj
    · intro j hj hne
      rw [hslot j] at hne ⊢
      by_cases hm : j = i
      · rw [if_pos hm] at hne
        exact absurd rfl hne
      · rw [if_neg hm] at hne ⊢
        exact hInv.emptyZero j hj hne
    · intro j hj hoccj k hk
      rw [hstate j] at hoccj
      rw [haddr2 j] at hk
      rw [hstate, haddr2 j]
      exact hInv.probe j hj hoccj k hk
    · intro j hj j' hj' hne hoccj hoccj'
      rw [hstate] at hoccj hoccj'
      rw [haddr2, haddr2]
      exact hInv.distinct j hj j' hj' hne hoccj hoccj'
  · -- insertion: slot i goes from free to occupied
    rw [heq]
    have hil : i < s.hash_table.length := by rw [hInv.len]; exact hi
    have hcnt1024 : countOccupied s.hash_table < 1024 := hcnt
    have hslot : ∀ m, slotAt (insResult s ev i) m =
        if m = i then
          ⟨.occupied, updateDevice { (slotAt s i).device with addr := ev.addr, n_adv := 0 } ev⟩
        else slotAt s m := by
      intro m
      by_cases hm : m = i
      · subst hm
        simp only [if_pos rfl]
        exact getD_set_self _ _ _ _ hil
      · simp only [if_neg hm]
        exact getD_set_ne _ _ _ _ _ (fun h => hm h.symm)
    have hoccmono : ∀ m, (slotAt s m).state = .occupied →
        (slotAt (insResult s ev i) m).state = .occupied := by
      intro m hm
      rw [hslot m]
      by_cases hmi : m = i
      · rw [if_pos hmi]
      · rw [if_neg hmi]
        exact hm
    have hocci : (slotAt (insResult s ev i) i).state = .occupied := by
      rw [hslot i, if_pos rfl]
    have haddri : (slotAt (insResult s ev i) i).device.addr = ev.addr := by
      rw [hslot i, if_pos rfl]
      exact updateDevice_addr _ _
    have hstate_ne : ∀ m, m ≠ i → slotAt (insResult s ev i) m = slotAt s m := by
      intro m hm
      rw [hslot m, if_neg hm]
    have hcount : countOccupied (insResult s ev i).hash_table =
        countOccupied s.hash_table + 1 := by
      show countOccupied (s.hash_table.set i _) = _
      refine countOccupied_set_of_free _ _ _ hil ?_ (by simp [isOcc])
      show isOcc (slotAt s i) = false
      simp [isOcc, hfree]
    refine ⟨?_, hInv.header4, hInv.seqLt, hInv.msgSeq, Nat.mod_lt _ (by norm_num),
      ?_, ?_, hInv.active, ?_, ?_, ?_, ?_⟩
    · show (s.hash_table.set i _).length = HASH_SIZE
      rw [List.length_set]
      exact hInv.len
    · show (s.buffer_header.n_mac + 1) % 65536 = _
      rw [hcount, ← hInv.nmac]
      have : s.buffer_header.n_mac < 1024 := by rw [hInv.nmac]; exact hcnt1024
      omega
    · show (s.hash_entries + 1) % 65536 = _
      rw [hcount, ← hInv.hent]
      have : s.hash_entries < 1024 := by rw [hInv.hent]; exact hcnt1024
      omega
    · intro j hj hoccj
      rw [hslot j] at hoccj ⊢
      by_cases hm : j = i
      · rw [if_pos hm]
        exact updateDevice_wf (d := { (slotAt s i).device with addr := ev.addr, n_adv := 0 })
          hwf.1 hwf.2.1 hwf
      · rw [if_neg hm] at hoccj ⊢
        exact hInv.occWF j hj hoccj
    · intro j hj hne
      rw [hslot j] at hne ⊢
      by_cases hm : j = i
      · rw [if_pos hm] at hne
        exact absurd rfl hne
      · rw [if_neg hm] at hne ⊢
        exact hInv.emptyZero j hj hne
    · intro j hj hoccj k hk
      by_cases hm : j = i
      · rw [hm] at hk ⊢
        rw [haddri] at hk ⊢
        exact hoccmono _ (hpath k hk)
      · rw [hstate_ne j hm] at hk hoccj ⊢
        have hh := hInv.probe j hj hoccj k hk
        exact hoccmono _ hh
    · intro j hj j' hj' hne hoccj hoccj'
      by_cases hmj : j = i
      · rw [hmj, haddri]
        have hne' : j' ≠ i := fun h => hne (hmj.trans h.symm)
        rw [hstate_ne j' hne'] at hoccj' ⊢
        exact fun h => habs j' hj' hoccj' h.symm
      · rw [hstate_ne j hmj] at hoccj ⊢
        by_cases hmj' : j' = i
        · rw [hmj', haddri]
          exact habs j hj hoccj
        · rw [hstate_ne j' hmj'] at hoccj' ⊢
          exact hInv.distinct j hj j' hj' hne hoccj hoccj'

/-! ### Tracking a single identifier across a step -/

theorem updateDevice_eq_mergeObs {d : DeviceData} {a : List Nat}
    (cur : Option DeviceData) (ev : ScanEvent) (hd : d.addr = a)
    (hn : d.n_adv = match cur with | none => 0 | some c => c.n_adv) :
    updateDevice d ev = mergeObs cur a ev := by
  cases d
  simp_all [updateDevice, mergeObs]

theorem AState_bumpRaw {s : SysState} {a : List Nat} {r : Option DeviceData}
    (h : AState s a r) : AState (bumpRaw s) a r := h

theorem scan_aState {s : SysState} (hInv : SysInv s) {ev : ScanEvent} (a : List Nat)
    {r : Option DeviceData} (hA : AState s a r)
    (hnf : ev.addr = a → (find_or_add_device (bumpRaw s) ev.addr).1 ≠ none) :
    AState (scan_cb s ev) a (if ev.addr = a then some (mergeObs r a ev) else r) := by
  rcases scan_cases hInv ev with ⟨heq, hfind, habs, _⟩ | ⟨i, hi, hocc, haddr, hfind, heq⟩ |
    ⟨i, hi, hfree, habs, hpath, hcnt, hfind, heq⟩
  · -- table full, event dropped
    have haneq : ev.addr ≠ a := fun h => hnf h hfind
    rw [if_neg haneq, heq]
    exact AState_bumpRaw hA
  · -- lookup hit at slot i
    have hil : i < s.hash_table.length := by rw [hInv.len]; exact hi
    have hslotset : slotAt (hitResult s ev i) i =
        ⟨.occupied, updateDevice (slotAt s i).device ev⟩ :=
      getD_set_self _ _ _ _ hil
    have hslotne : ∀ m, m ≠ i → slotAt (hitResult s ev i) m = slotAt s m :=
      fun m hm => getD_set_ne _ _ _ _ _ (fun h => hm h.symm)
    rw [heq]
    by_cases hEq : ev.addr = a
    · rw [if_pos hEq]
      cases r with
      | none =>
        exact absurd (haddr.trans hEq) (hA i hi hocc)
      | some d =>
        have hA' : d.addr = a ∧ ∃ i', i' < HASH_SIZE ∧ slotAt s i' = ⟨.occupied, d⟩ ∧
            ∀ j, j < HASH_SIZE → j ≠ i' → (slotAt s j).state = .occupied →
              (slotAt s j).device.addr ≠ a := hA
        obtain ⟨hda, i', hi', hslot', huniq⟩ := hA'
        have hii : i = i' := by
          by_contra hne
          exact huniq i hi hne hocc (haddr.trans hEq)
        subst hii
        have hdev : (slotAt s i).device = d := by rw [hslot']
        refine ⟨rfl, i, hi, ?_, ?_⟩
        · rw [hslotset, hdev, updateDevice_eq_mergeObs (some d) ev hda rfl]
        · intro j hj hjne hoccj
          rw [hslotne j hjne] at hoccj ⊢
          exact huniq j hj hjne hoccj
    · rw [if_neg hEq]
      cases r with
      | none =>
        intro m hm hoccm
        by_cases hmi : m = i
        · rw [hmi, hslotset]
          show (updateDevice (slotAt s i).device ev).addr ≠ a
          rw [updateDevice_addr, haddr]
          exact fun h => hEq h
        · rw [hslotne m hmi] at hoccm ⊢
          exact hA m hm hoccm
      | some d =>
        have hA' : d.addr = a ∧ ∃ i', i' < HASH_SIZE ∧ slotAt s i' = ⟨.occupied, d⟩ ∧
            ∀ j, j < HASH_SIZE → j ≠ i' → (slotAt s j).state = .occupied →
              (slotAt s j).device.addr ≠ a := hA
        obtain ⟨hda, i', hi', hslot', huniq⟩ := hA'
        have hii : i' ≠ i := by
          intro h
          apply hEq
          have hia : (slotAt s i).device.addr = a := by
            rw [← h, hslot']
            exact hda
          exact haddr.symm.trans hia
        refine ⟨hda, i', hi', ?_, ?_⟩
        · rw [hslotne i' hii]
          exact hslot'
        · intro j hj hjne hoccj
          by_cases hmi : j = i
          · rw [hmi, hslotset] at hoccj ⊢
            show (updateDevice (slotAt s i).device ev).addr ≠ a
            rw [updateDevice_addr, haddr]
            exact fun h => hEq h
          · rw [hslotne j hmi] at hoccj ⊢
            exact huniq j hj hjne hoccj
  · -- insertion at previously free slot i
    have hil : i < s.hash_table.length := by rw [hInv.len]; exact hi
    have hslotset : slotAt (insResult s ev i) i =
        ⟨.occupied,
         updateDevice { (slotAt s i).device with addr := ev.addr, n_adv := 0 } ev⟩ :=
      getD_set_self _ _ _ _ hil
    have hslotne : ∀ m, m ≠ i → slotAt (insResult s ev i) m = slotAt s m :=
      fun m hm => getD_set_ne _ _ _ _ _ (fun h => hm h.symm)
    rw [heq]
    by_cases hEq : ev.addr = a
    · rw [if_pos hEq]
      cases r with
      | none =>
        refine ⟨rfl, i, hi, ?_, ?_⟩
        · rw [hslotset,
            updateDevice_eq_mergeObs none ev (show ev.addr = a from hEq) rfl]
        · intro j hj hjne hoccj
          rw [hslotne j hjne] at hoccj ⊢
          exact fun h => habs j hj hoccj (h.trans hEq.symm)
      | some d =>
        have hA' : d.addr = a ∧ ∃ i', i' < HASH_SIZE ∧ slotAt s i' = ⟨.occupied, d⟩ ∧
            ∀ j, j < HASH_SIZE → j ≠ i' → (slotAt s j).state = .occupied →
              (slotAt s j).device.addr ≠ a := hA
        obtain ⟨hda, i', hi', hslot', huniq⟩ := hA'
        have hocc' : (slotAt s i').state = .occupied := by rw [hslot']
        have haddr' : (slotAt s i').device.addr = a := by rw [hslot']; exact hda
        exact absurd (haddr'.trans hEq.symm) (habs i' hi' hocc')
    · rw [if_neg hEq]
      cases r with
      | none =>
        intro m hm hoccm
        by_cases hmi : m = i
        · rw [hmi, hslotset]
          show (updateDevice { (slotAt s i).device with addr := ev.addr, n_adv := 0 } ev).addr ≠ a
          rw [updateDevice_addr]
          exact fun h => hEq h
        · rw [hslotne m hmi] at hoccm ⊢
          exact hA m hm hoccm
      | some d =>
        have hA' : d.addr = a ∧ ∃ i', i' < HASH_SIZE ∧ slotAt s i' = ⟨.occupied, d⟩ ∧
            ∀ j, j < HASH_SIZE → j ≠ i' → (slotAt s j).state = .occupied →
              (slotAt s j).device.addr ≠ a := hA
        obtain ⟨hda, i', hi', hslot', huniq⟩ := hA'
        have hii : i' ≠ i := by
          intro h
          have : (slotAt s i).state = .occupied := by rw [← h, hslot']
          exact hfree this
        refine ⟨hda, i', hi', ?_, ?_⟩
        · rw [hslotne i' hii]
          exact hslot'
        · intro j hj hjne hoccj
          by_cases hmi : j = i
          · rw [hmi, hslotset] at hoccj ⊢
            show (updateDevice { (slotAt s i).device with addr := ev.addr, n_adv := 0 } ev).addr ≠ a
            rw [updateDevice_addr]
            exact fun h => hEq h
          · rw [hslotne j hmi] at hoccj ⊢
            exact huniq j hj hjne hoccj

/-! ### Whole-run lemmas -/

theorem runA_cons (a : List Nat) (r : Option DeviceData) (ev : ScanEvent)
    (evs : List ScanEvent) :
    runA a r (ev :: evs) =
      runA a (if ev.addr = a then some (mergeObs r a ev) else r) evs := rfl

theorem countA_cons_pos {a : List Nat} {ev : ScanEvent} (evs : List ScanEvent)
    (h : ev.addr = a) : countA a (ev :: evs) = countA a evs + 1 := by
  simp [countA, List.filter_cons, h]

theorem countA_cons_neg {a : List Nat} {ev : ScanEvent} (evs : List ScanEvent)
    (h : ev.addr ≠ a) : countA a (ev :: evs) = countA a evs := by
  simp [countA, List.filter_cons, h]

theorem mergeObs_matches (c : Option DeviceData) (a : List Nat) (ev : ScanEvent) :
    matchesEvent (mergeObs c a ev) ev := by
  refine ⟨rfl, rfl, rfl, rfl, rfl⟩

theorem runA_some_spec (a : List Nat) :
    ∀ (evs : List ScanEvent) (d0 : DeviceData), d0.addr = a → d0.n_adv < 256 →
      ∃ d, runA a (some d0) evs = some d ∧ d.addr = a ∧
        d.n_adv = (d0.n_adv + countA a evs) % 256 ∧
        (countA a evs = 0 → d = d0) ∧
        (∀ evL, (evs.filter (fun ev => decide (ev.addr = a))).getLast? = some evL →
          matchesEvent d evL)
  | [], d0, ha, hn => by
    refine ⟨d0, rfl, ha, ?_, fun _ => rfl, ?_⟩
    · show d0.n_adv = (d0.n_adv + countA a []) % 256
      have h0 : countA a [] = 0 := rfl
      rw [h0]
      omega
    · intro evL hL
      simp at hL
  | ev :: evs, d0, ha, hn => by
    by_cases h : ev.addr = a
    · rw [runA_cons, if_pos h]
      obtain ⟨d, hrun, hda, hcnt, hzero, hlast⟩ :=
        runA_some_spec a evs (mergeObs (some d0) a ev) rfl (Nat.mod_lt _ (by norm_num))
      refine ⟨d, hrun, hda, ?_, ?_, ?_⟩
      · rw [hcnt, countA_cons_pos evs h]
        show ((d0.n_adv + 1) % 256 + countA a evs) % 256 = _
        omega
      · rw [countA_cons_pos evs h]
        omega
      · intro evL hL
        rw [List.filter_cons_of_pos (by simp [h])] at hL
        cases hfe : evs.filter (fun ev => decide (ev.addr = a)) with
        | nil =>
          rw [hfe, List.getLast?_singleton] at hL
          have hc0 : countA a evs = 0 := by rw [countA, hfe]; rfl
          have hd : d = mergeObs (some d0) a ev := hzero hc0
          rw [hd, ← Option.some_inj.mp hL]
          exact mergeObs_matches _ _ _
        | cons x xs =>
          rw [hfe, List.getLast?_cons_cons] at hL
          apply hlast
          rw [hfe]
          exact hL
    · rw [runA_cons, if_neg h]
      obtain ⟨d, hrun, hda, hcnt, hzero, hlast⟩ := runA_some_spec a evs d0 ha hn
      refine ⟨d, hrun, hda, ?_, ?_, ?_⟩
      · rw [hcnt, countA_cons_neg evs h]
      · rw [countA_cons_neg evs h]
        exact hzero
      · intro evL hL
        rw [List.filter_cons_of_neg (by simp [h])] at hL
        exact hlast evL hL

theorem runA_none_spec (a : List Nat) :
    ∀ evs : List ScanEvent, 0 < countA a evs →
      ∃ d, runA a none evs = some d ∧ d.addr = a ∧
        d.n_adv = countA a evs % 256 ∧
        (∀ evL, (evs.filter (fun ev => decide (ev.addr = a))).getLast? = some evL →
          matchesEvent d evL)
  | [], h => absurd h (by simp [countA])
  | ev :: evs, h => by
    by_cases haddr : ev.addr = a
    · rw [runA_cons, if_pos haddr]
      obtain ⟨d, hrun, hda, hcnt, hzero, hlast⟩ :=
        runA_some_spec a evs (mergeObs none a ev) rfl (Nat.mod_lt _ (by norm_num))
      refine ⟨d, hrun, hda, ?_, ?_⟩
      · rw [hcnt, countA_cons_pos evs haddr]
        show ((0 + 1) % 256 + countA a evs) % 256 = _
        omega
      · intro evL hL
        rw [List.filter_cons_of_pos (by simp [haddr])] at hL
        cases hfe : evs.filter (fun ev => decide (ev.addr = a)) with
        | nil =>
          rw [hfe, List.getLast?_singleton] at hL
          have hc0 : countA a evs = 0 := by rw [countA, hfe]; rfl
          have hd : d = mergeObs none a ev := hzero hc0
          rw [hd, ← Option.some_inj.mp hL]
          exact mergeObs_matches _ _ _
        | cons x xs =>
          rw [hfe, List.getLast?_cons_cons] at hL
          apply hlast
          rw [hfe]
          exact hL
    · rw [runA_cons, if_neg haddr]
      rw [countA_cons_neg evs haddr] at h
      obtain ⟨d, hrun, hda, hcnt, hlast⟩ := runA_none_spec a evs h
      refine ⟨d, hrun, hda, ?_, ?_⟩
      · rw [hcnt, countA_cons_neg evs haddr]
      · intro evL hL
        rw [List.filter_cons_of_neg (by simp [haddr])] at hL
        exact hlast evL hL

theorem device_eq_mergeObsFinal {d : DeviceData} {a : List Nat} {ev : ScanEvent}
    {n : Nat} (hda : d.addr = a) (hn : d.n_adv = n % 256)
    (hm : matchesEvent d ev) : d = mergeObsFinal a ev n := by
  obtain ⟨h1, h2, h3, h4, h5⟩ := hm
  cases d
  simp_all [mergeObsFinal]

theorem run_inv : ∀ (evs : List ScanEvent) (s : SysState), SysInv s →
    (∀ ev ∈ evs, EventWF ev) → SysInv (evs.foldl scan_cb s)
  | [], _, hInv, _ => hInv
  | ev :: evs, s, hInv, hwf => by
    rw [List.foldl_cons]
    exact run_inv evs _ (scan_inv hInv (hwf ev (by simp)))
      (fun e he => hwf e (by simp [he]))

theorem run_track (a : List Nat) :
    ∀ (evs : List ScanEvent) (s : SysState) (r : Option DeviceData),
      SysInv s → (∀ ev ∈ evs, EventWF ev) → NoFullA a s evs → AState s a r →
      AState (evs.foldl scan_cb s) a (runA a r evs)
  | [], _, _, _, _, _, hA => hA
  | ev :: evs, s, r, hInv, hwf, hnf, hA => by
    rw [List.foldl_cons, runA_cons]
    have hnf' : (ev.addr = a → (find_or_add_device (bumpRaw s) ev.addr).1 ≠ none) ∧
        NoFullA a (scan_cb s ev) evs := hnf
    exact run_track a evs _ _ (scan_inv hInv (hwf ev (by simp)))
      (fun e he => hwf e (by simp [he])) hnf'.2 (scan_aState hInv a hA hnf'.1)

/-! ### Fresh windows and reachability -/

theorem countOccupied_replicate_empty (n : Nat) :
    countOccupied (List.replicate n emptyEntry) = 0 := by
  induction n with
  | zero => rfl
  | succ n ih =>
    rw [List.replicate_succ, countOccupied, List.filter_cons]
    have : isOcc emptyEntry = false := by simp [isOcc, emptyEntry]
    rw [this]
    exact ih

theorem slotAt_fresh (q : Nat) {i : Nat} (hi : i < HASH_SIZE) :
    slotAt (freshWindow q) i = emptyEntry :=
  getD_replicate _ _ hi

theorem fresh_inv (q : Nat) : SysInv (freshWindow q) where
  len := List.length_replicate _ _
  header4 := rfl
  seqLt := Nat.mod_lt _ (by norm_num)
  msgSeq := by
    show (q + 1) % 256 = (q % 256 + 1) % 256
    omega
  rawLt := by
    show (0 : Nat) < 65536
    norm_num
  nmac := (countOccupied_replicate_empty _).symm
  hent := (countOccupied_replicate_empty _).symm
  active := rfl
  occWF := by
    intro i hi hocc
    rw [slotAt_fresh q hi] at hocc
    simp [emptyEntry] at hocc
  emptyZero := fun i hi _ => slotAt_fresh q hi
  probe := by
    intro i hi hocc
    rw [slotAt_fresh q hi] at hocc
    simp [emptyEntry] at hocc
  distinct := by
    intro i hi j hj hne hocci
    rw [slotAt_fresh q hi] at hocci
    simp [emptyEntry] at hocci

theorem startState_eq : startState = freshWindow 0 := rfl

theorem flush_eq (s : SysState) :
    (sampling_timer_handler s).2 = freshWindow s.msg_sequence := rfl

theorem reachable_inv {s : SysState} (h : Reachable s) : SysInv s := by
  induction h with
  | init =>
    rw [startState_eq]
    exact fresh_inv 0
  | scan ev _ hwf ih => exact scan_inv ih hwf
  | flush _ ih =>
    rw [flush_eq]
    exact fresh_inv _

/-! ### From the tracked record to the filtered table -/

theorem AState_fresh (q : Nat) (a : List Nat) : AState (freshWindow q) a none := by
  intro i hi hocc
  rw [slotAt_fresh q hi] at hocc
  simp [emptyEntry] at hocc

theorem aEntries_of_AState {s : SysState} (hInv : SysInv s) {a : List Nat}
    {d : DeviceData} (hA : AState s a (some d)) :
    aEntries s a = [⟨.occupied, d⟩] := by
  have hA' : d.addr = a ∧ ∃ i, i < HASH_SIZE ∧ slotAt s i = ⟨.occupied, d⟩ ∧
      ∀ j, j < HASH_SIZE → j ≠ i → (slotAt s j).state = .occupied →
        (slotAt s j).device.addr ≠ a := hA
  obtain ⟨hda, i, hi, hslot, huniq⟩ := hA'
  have hil : i < s.hash_table.length := by rw [hInv.len]; exact hi
  have hgi : s.hash_table[i] = (⟨.occupied, d⟩ : HashEntry) := by
    rw [← getD_eq_getElem s.hash_table emptyEntry hil]
    exact hslot
  have := filter_eq_singleton_of_unique
    (p := fun e => decide (e.state = EntryState.occupied ∧ e.device.addr = a))
    s.hash_table i hil
    (by rw [hgi]; simp [hda])
    (by
      intro j hj hpj
      by_contra hne
      have hjS : j < HASH_SIZE := by rw [← hInv.len]; exact hj
      have hsj : slotAt s j = s.hash_table[j] := getD_eq_getElem s.hash_table emptyEntry hj
      rw [← hsj] at hpj
      simp only [decide_eq_true_eq] at hpj
      exact huniq j hjS hne hpj.1 hpj.2)
  rw [aEntries, this, hgi]

/-! ### Header fields across steps and runs -/

theorem find_snd_cases (s : SysState) (mac : List Nat) :
    (find_or_add_device s mac).2 = s ∨
    ∃ j, (find_or_add_device s mac).2 = insertAt s mac j :=
  findOrAddGo_snd s mac HASH_SIZE (hash_mac mac)

theorem scan_fields (s : SysState) (ev : ScanEvent) :
    (scan_cb s ev).buffer_header.sequence = s.buffer_header.sequence ∧
    (scan_cb s ev).msg_sequence = s.msg_sequence ∧
    (scan_cb s ev).buffer_header.header = s.buffer_header.header ∧
    (scan_cb s ev).buffer_active = s.buffer_active := by
  by_cases hb : s.buffer_active = false
  · rw [scan_cb_inactive ev hb]
    exact ⟨rfl, rfl, rfl, rfl⟩
  · have hact : s.buffer_active = true := by
      revert hb
      cases s.buffer_active <;> simp
    rcases hres : find_or_add_device (bumpRaw s) ev.addr with ⟨r, s2⟩
    have hsnd : s2 = bumpRaw s ∨ ∃ j, s2 = insertAt (bumpRaw s) ev.addr j := by
      have h2 := find_snd_cases (bumpRaw s) ev.addr
      rw [hres] at h2
      exact h2
    have hfields : s2.buffer_header.sequence = s.buffer_header.sequence ∧
        s2.msg_sequence = s.msg_sequence ∧
        s2.buffer_header.header = s.buffer_header.header ∧
        s2.buffer_active = s.buffer_active := by
      rcases hsnd with h | ⟨j, h⟩ <;> rw [h] <;> exact ⟨rfl, rfl, rfl, rfl⟩
    cases r with
    | none =>
      rw [scan_cb_eq_none hact hres]
      exact hfields
    | some i =>
      rw [scan_cb_eq_some hact hres]
      exact hfields

theorem scan_raw {s : SysState} (hact : s.buffer_active = true) (ev : ScanEvent) :
    (scan_cb s ev).buffer_header.n_adv_raw =
      (s.buffer_header.n_adv_raw + 1) % 65536 := by
  rcases hres : find_or_add_device (bumpRaw s) ev.addr with ⟨r, s2⟩
  have hsnd : s2 = bumpRaw s ∨ ∃ j, s2 = insertAt (bumpRaw s) ev.addr j := by
    have h2 := find_snd_cases (bumpRaw s) ev.addr
    rw [hres] at h2
    exact h2
  have hraw : s2.buffer_header.n_adv_raw = (s.buffer_header.n_adv_raw + 1) % 65536 := by
    rcases hsnd with h | ⟨j, h⟩ <;> rw [h] <;> rfl
  cases r with
  | none =>
    rw [scan_cb_eq_none hact hres]
    exact hraw
  | some i =>
    rw [scan_cb_eq_some hact hres]
    exact hraw

theorem run_fields : ∀ (evs : List ScanEvent) (s : SysState),
    (evs.foldl scan_cb s).buffer_header.sequence = s.buffer_header.sequence ∧
    (evs.foldl scan_cb s).msg_sequence = s.msg_sequence ∧
    (evs.foldl scan_cb s).buffer_header.header = s.buffer_header.header ∧
    (evs.foldl scan_cb s).buffer_active = s.buffer_active
  | [], _ => ⟨rfl, rfl, rfl, rfl⟩
  | ev :: evs, s => by
    rw [List.foldl_cons]
    obtain ⟨h1, h2, h3, h4⟩ := run_fields evs (scan_cb s ev)
    obtain ⟨g1, g2, g3, g4⟩ := scan_fields s ev
    exact ⟨h1.trans g1, h2.trans g2, h3.trans g3, h4.trans g4⟩

theorem run_raw : ∀ (evs : List ScanEvent) (s : SysState), s.buffer_active = true →
    s.buffer_header.n_adv_raw < 65536 →
    (evs.foldl scan_cb s).buffer_header.n_adv_raw =
      (s.buffer_header.n_adv_raw + evs.length) % 65536
  | [], s, _, hlt => by
    show s.buffer_header.n_adv_raw = (s.buffer_header.n_adv_raw + 0) % 65536
    omega
  | ev :: evs, s, hact, hlt => by
    rw [List.foldl_cons]
    have hact' : (scan_cb s ev).buffer_active = true := by
      rw [(scan_fields s ev).2.2.2]
      exact hact
    have hraw := scan_raw hact ev
    have ih := run_raw evs (scan_cb s ev) hact' (by rw [hraw]; exact Nat.mod_lt _ (by norm_num))
    rw [ih, hraw]
    show ((s.buffer_header.n_adv_raw + 1) % 65536 + evs.length) % 65536 =
      (s.buffer_header.n_adv_raw + (evs.length + 1)) % 65536
    omega

/-! ### Single-identifier runs never fill the table -/

theorem noFullA_single (a : List Nat) :
    ∀ (evs : List ScanEvent) (s : SysState), SysInv s →
      (∀ ev ∈ evs, EventWF ev) →
      (∀ ev ∈ evs, ev.addr = a) →
      ((∃ i, i < HASH_SIZE ∧ (slotAt s i).state = .occupied ∧
          (slotAt s i).device.addr = a) ∨
        countOccupied s.hash_table < HASH_SIZE) →
      NoFullA a s evs
  | [], _, _, _, _, _ => trivial
  | ev :: evs, s, hInv, hwf, haddr, hst => by
    have hea : ev.addr = a := haddr ev (by simp)
    show (ev.addr = a → (find_or_add_device (bumpRaw s) ev.addr).1 ≠ none) ∧
      NoFullA a (scan_cb s ev) evs
    rcases scan_cases hInv ev with ⟨heq, hfind, habs, hcnt⟩ |
      ⟨i, hi, hocc, haddri, hfind, heq⟩ |
      ⟨i, hi, hfree, habs, hpath, hcnt, hfind, heq⟩
    · -- the drop case is impossible here
      exfalso
      rcases hst with ⟨i, hi, hocc, haddri⟩ | hlt
      · exact habs i hi hocc (by rw [haddri, hea])
      · omega
    · refine ⟨fun _ => by rw [hfind]; simp, ?_⟩
      have hil : i < s.hash_table.length := by rw [hInv.len]; exact hi
      have hnext : (slotAt (scan_cb s ev) i).state = .occupied ∧
          (slotAt (scan_cb s ev) i).device.addr = a := by
        rw [heq]
        have hset : slotAt (hitResult s ev i) i =
            ⟨.occupied, updateDevice (slotAt s i).device ev⟩ :=
          getD_set_self _ _ _ _ hil
        rw [hset]
        exact ⟨rfl, by rw [updateDevice_addr, haddri, hea]⟩
      exact noFullA_single a evs (scan_cb s ev)
        (scan_inv hInv (hwf ev (by simp))) (fun e he => hwf e (by simp [he]))
        (fun e he => haddr e (by simp [he]))
        (Or.inl ⟨i, hi, hnext.1, hnext.2⟩)
    · refine ⟨fun _ => by rw [hfind]; simp, ?_⟩
      have hil : i < s.hash_table.length := by rw [hInv.len]; exact hi
      have hnext : (slotAt (scan_cb s ev) i).state = .occupied ∧
          (slotAt (scan_cb s ev) i).device.addr = a := by
        rw [heq]
        have hset : slotAt (insResult s ev i) i =
            ⟨.occupied,
             updateDevice { (slotAt s i).device with addr := ev.addr, n_adv := 0 } ev⟩ :=
          getD_set_self _ _ _ _ hil
        rw [hset]
        exact ⟨rfl, by rw [updateDevice_addr]; exact hea⟩
      exact noFullA_single a evs (scan_cb s ev)
        (scan_inv hInv (hwf ev (by simp))) (fun e he => hwf e (by simp [he]))
        (fun e he => haddr e (by simp [he]))
        (Or.inl ⟨i, hi, hnext.1, hnext.2⟩)

/-! ### Serialisation and decoding -/

theorem list6_ex {l : List Nat} (h : l.length = 6) :
    ∃ b0 b1 b2 b3 b4 b5, l = [b0, b1, b2, b3, b4, b5] := by
  rcases l with _ | ⟨b0, l⟩
  · simp at h
  rcases l with _ | ⟨b1, l⟩
  · simp at h
  rcases l with _ | ⟨b2, l⟩
  · simp at h
  rcases l with _ | ⟨b3, l⟩
  · simp at h
  rcases l with _ | ⟨b4, l⟩
  · simp at h
  rcases l with _ | ⟨b5, l⟩
  · simp at h
  rcases l with _ | ⟨b6, l⟩
  · exact ⟨b0, b1, b2, b3, b4, b5, rfl⟩
  · simp at h

theorem decodeRssi_byteOfInt {r : Int} (h1 : -128 ≤ r) (h2 : r < 128) :
    decodeRssi (byteOfInt r) = r := by
  unfold decodeRssi byteOfInt
  by_cases hr : 0 ≤ r
  · have hmod : r % 256 = r := Int.emod_eq_of_lt hr (by omega)
    rw [hmod]
    have hlt : r.toNat < 128 := by omega
    rw [if_pos hlt]
    omega
  · push_neg at hr
    have hmod : r % 256 = r + 256 := by omega
    rw [hmod]
    have hge : ¬ (r + 256).toNat < 128 := by omega
    rw [if_neg hge]
    omega

theorem serializeDevice_length {d : DeviceData} (h6 : d.addr.length = 6)
    (h31 : d.data.length = 31) : (serializeDevice d).length = 42 := by
  simp [serializeDevice, h6, h31]

theorem decodeRecord_serializeDevice {d : DeviceData} (hwf : DeviceWF d) :
    decodeRecord (serializeDevice d) = d := by
  obtain ⟨h6, hb, ht, hv, hr1, hr2, hdl, hdlen, hdb, hna, _⟩ := hwf
  obtain ⟨b0, b1, b2, b3, b4, b5, haddr⟩ := list6_ex h6
  rcases d with ⟨addr, at_, vt, rs, dl, data, na⟩
  simp only at haddr ht hv hr1 hr2 hdl hdlen hna
  subst haddr
  have hser : serializeDevice ⟨[b0, b1, b2, b3, b4, b5], at_, vt, rs, dl, data, na⟩ =
      b0 :: b1 :: b2 :: b3 :: b4 :: b5 :: (at_ % 256) :: (vt % 256) ::
        byteOfInt rs :: (dl % 256) :: (data ++ [na % 256]) := by
    rw [serializeDevice]
    simp
  rw [hser, decodeRecord]
  have htake : (b0 :: b1 :: b2 :: b3 :: b4 :: b5 :: (at_ % 256) :: (vt % 256) ::
      byteOfInt rs :: (dl % 256) :: (data ++ [na % 256])).take 6 =
      [b0, b1, b2, b3, b4, b5] := rfl
  have hg6 : (b0 :: b1 :: b2 :: b3 :: b4 :: b5 :: (at_ % 256) :: (vt % 256) ::
      byteOfInt rs :: (dl % 256) :: (data ++ [na % 256])).getD 6 0 = at_ % 256 := rfl
  have hg7 : (b0 :: b1 :: b2 :: b3 :: b4 :: b5 :: (at_ % 256) :: (vt % 256) ::
      byteOfInt rs :: (dl % 256) :: (data ++ [na % 256])).getD 7 0 = vt % 256 := rfl
  have hg8 : (b0 :: b1 :: b2 :: b3 :: b4 :: b5 :: (at_ % 256) :: (vt % 256) ::
      byteOfInt rs :: (dl % 256) :: (data ++ [na % 256])).getD 8 0 = byteOfInt rs := rfl
  have hg9 : (b0 :: b1 :: b2 :: b3 :: b4 :: b5 :: (at_ % 256) :: (vt % 256) ::
      byteOfInt rs :: (dl % 256) :: (data ++ [na % 256])).getD 9 0 = dl % 256 := rfl
  have hdrop : (b0 :: b1 :: b2 :: b3 :: b4 :: b5 :: (at_ % 256) :: (vt % 256) ::
      byteOfInt rs :: (dl % 256) :: (data ++ [na % 256])).drop 10 =
      data ++ [na % 256] := rfl
  have hg41 : (b0 :: b1 :: b2 :: b3 :: b4 :: b5 :: (at_ % 256) :: (vt % 256) ::
      byteOfInt rs :: (dl % 256) :: (data ++ [na % 256])).getD 41 0 = na % 256 := by
    have h41 : (b0 :: b1 :: b2 :: b3 :: b4 :: b5 :: (at_ % 256) :: (vt % 256) ::
        byteOfInt rs :: (dl % 256) :: (data ++ [na % 256])).getD 41 0 =
        (data ++ [na % 256]).getD 31 0 := rfl
    rw [h41, List.getD_eq_getElem?_getD,
      List.getElem?_append_right (le_of_eq hdlen), hdlen]
    simp
  rw [htake, hg6, hg7, hg8, hg9, hdrop, hg41]
  have htk31 : (data ++ [na % 256]).take 31 = data := by
    rw [← hdlen]
    exact List.take_left _ _
  rw [htk31, decodeRssi_byteOfInt hr1 hr2]
  have e1 : at_ % 256 = at_ := Nat.mod_eq_of_lt ht
  have e2 : vt % 256 = vt := Nat.mod_eq_of_lt hv
  have e3 : dl % 256 = dl := Nat.mod_eq_of_lt (by omega)
  have e4 : na % 256 = na := Nat.mod_eq_of_lt hna
  rw [e1, e2, e3, e4]

theorem decodeRecords_flatten :
    ∀ ds : List DeviceData, (∀ d ∈ ds, DeviceWF d) →
      decodeRecords ds.length ((ds.map serializeDevice).flatten) = some ds
  | [], _ => rfl
  | d :: ds, hwf => by
    have hw := hwf d (by simp)
    have hlen : (serializeDevice d).length = 42 :=
      serializeDevice_length hw.1 hw.2.2.2.2.2.2.2.1
    show decodeRecords (ds.length + 1)
      (serializeDevice d ++ (ds.map serializeDevice).flatten) = _
    rw [decodeRecords]
    have hge : ¬ (serializeDevice d ++ (ds.map serializeDevice).flatten).length < 42 := by
      rw [List.length_append, hlen]
      omega
    rw [if_neg hge]
    have hdrop : (serializeDevice d ++ (ds.map serializeDevice).flatten).drop 42 =
        (ds.map serializeDevice).flatten := by
      rw [← hlen]
      exact List.drop_left _ _
    have htake : (serializeDevice d ++ (ds.map serializeDevice).flatten).take 42 =
        serializeDevice d := by
      rw [← hlen]
      exact List.take_left _ _
    rw [hdrop, decodeRecords_flatten ds (fun e he => hwf e (by simp [he]))]
    rw [htake, decodeRecord_serializeDevice hw]

theorem serializeHeader_eq {h : BufferHeader} (hh : h.header = List.replicate 4 0x55) :
    serializeHeader h = [0x55, 0x55, 0x55, 0x55, h.sequence % 256,
      h.n_adv_raw % 256, h.n_adv_raw / 256 % 256,
      h.n_mac % 256, h.n_mac / 256 % 256] := by
  rw [serializeHeader, hh]
  rfl

theorem send_buffer_eq (s : SysState) :
    send_buffer s = serializeHeader s.buffer_header ++
      ((occupiedDevices s).map serializeDevice).flatten := by
  rw [send_buffer, occupiedDevices, List.map_map]
  rfl

theorem occupiedDevices_length (s : SysState) :
    (occupiedDevices s).length = countOccupied s.hash_table := by
  rw [occupiedDevices, List.length_map]
  rfl

theorem occupiedDevices_wf {s : SysState} (hInv : SysInv s) :
    ∀ d ∈ occupiedDevices s, DeviceWF d := by
  intro d hd
  rw [occupiedDevices] at hd
  obtain ⟨e, he, rfl⟩ := List.mem_map.mp hd
  have hocc : isOcc e := (List.mem_filter.mp he).2
  have hmem : e ∈ s.hash_table := (List.mem_filter.mp he).1
  obtain ⟨i, hi, rfl⟩ := mem_slot s hmem
  exact hInv.occWF i (by rw [← hInv.len]; exact hi) (by simpa [isOcc] using hocc)

theorem decodeFrame_send {s : SysState} (hInv : SysInv s) :
    decodeFrame (send_buffer s) = some (s.buffer_header.sequence,
      s.buffer_header.n_adv_raw, s.buffer_header.n_mac, occupiedDevices s) := by
  have hframe : send_buffer s = 0x55 :: 0x55 :: 0x55 :: 0x55 ::
      (s.buffer_header.sequence % 256) :: (s.buffer_header.n_adv_raw % 256) ::
      (s.buffer_header.n_adv_raw / 256 % 256) :: (s.buffer_header.n_mac % 256) ::
      (s.buffer_header.n_mac / 256 % 256) ::
      ((occupiedDevices s).map serializeDevice).flatten := by
    rw [send_buffer_eq, serializeHeader_eq hInv.header4]
    rfl
  have hnm_lt : s.buffer_header.n_mac < 65536 := by
    have h1 : countOccupied s.hash_table ≤ HASH_SIZE := by
      have := countOccupied_le s.hash_table
      rw [hInv.len] at this
      exact this
    rw [hInv.nmac]
    have : HASH_SIZE = 1024 := rfl
    omega
  rw [hframe, decodeFrame]
  rw [if_pos ?cond]
  case cond =>
    constructor
    · rfl
    · simp only [List.length_cons]
      omega
  have h4 : (0x55 :: 0x55 :: 0x55 :: 0x55 ::
      (s.buffer_header.sequence % 256) :: (s.buffer_header.n_adv_raw % 256) ::
      (s.buffer_header.n_adv_raw / 256 % 256) :: (s.buffer_header.n_mac % 256) ::
      (s.buffer_header.n_mac / 256 % 256) ::
      ((occupiedDevices s).map serializeDevice).flatten).getD 4 0 =
      s.buffer_header.sequence % 256 := rfl
  have h5 : (0x55 :: 0x55 :: 0x55 :: 0x55 ::
      (s.buffer_header.sequence % 256) :: (s.buffer_header.n_adv_raw % 256) ::
      (s.buffer_header.n_adv_raw / 256 % 256) :: (s.buffer_header.n_mac % 256) ::
      (s.buffer_header.n_mac / 256 % 256) ::
      ((occupiedDevices s).map serializeDevice).flatten).getD 5 0 =
      s.buffer_header.n_adv_raw % 256 := rfl
  have h6 : (0x55 :: 0x55 :: 0x55 :: 0x55 ::
      (s.buffer_header.sequence % 256) :: (s.buffer_header.n_adv_raw % 256) ::
      (s.buffer_header.n_adv_raw / 256 % 256) :: (s.buffer_header.n_mac % 256) ::
      (s.buffer_header.n_mac / 256 % 256) ::
      ((occupiedDevices s).map serializeDevice).flatten).getD 6 0 =
      s.buffer_header.n_adv_raw / 256 % 256 := rfl
  have h7 : (0x55 :: 0x55 :: 0x55 :: 0x55 ::
      (s.buffer_header.sequence % 256) :: (s.buffer_header.n_adv_raw % 256) ::
      (s.buffer_header.n_adv_raw / 256 % 256) :: (s.buffer_header.n_mac % 256) ::
      (s.buffer_header.n_mac / 256 % 256) ::
      ((occupiedDevices s).map serializeDevice).flatten).getD 7 0 =
      s.buffer_header.n_mac % 256 := rfl
  have h8 : (0x55 :: 0x55 :: 0x55 :: 0x55 ::
      (s.buffer_header.sequence % 256) :: (s.buffer_header.n_adv_raw % 256) ::
      (s.buffer_header.n_adv_raw / 256 % 256) :: (s.buffer_header.n_mac % 256) ::
      (s.buffer_header.n_mac / 256 % 256) ::
      ((occupiedDevices s).map serializeDevice).flatten).getD 8 0 =
      s.buffer_header.n_mac / 256 % 256 := rfl
  have hdrop : (0x55 :: 0x55 :: 0x55 :: 0x55 ::
      (s.buffer_header.sequence % 256) :: (s.buffer_header.n_adv_raw % 256) ::
      (s.buffer_header.n_adv_raw / 256 % 256) :: (s.buffer_header.n_mac % 256) ::
      (s.buffer_header.n_mac / 256 % 256) ::
      ((occupiedDevices s).map serializeDevice).flatten).drop 9 =
      ((occupiedDevices s).map serializeDevice).flatten := rfl
  rw [h4, h5, h6, h7, h8, hdrop]
  have hu16nm : decodeU16 (s.buffer_header.n_mac % 256)
      (s.buffer_header.n_mac / 256 % 256) = s.buffer_header.n_mac := by
    rw [decodeU16]
    omega
  have hu16raw : decodeU16 (s.buffer_header.n_adv_raw % 256)
      (s.buffer_header.n_adv_raw / 256 % 256) = s.buffer_header.n_adv_raw := by
    have := hInv.rawLt
    rw [decodeU16]
    omega
  have hlen : s.buffer_header.n_mac = (occupiedDevices s).length := by
    rw [occupiedDevices_length]
    exact hInv.nmac
  rw [hu16nm, hu16raw, hlen,
    decodeRecords_flatten (occupiedDevices s) (occupiedDevices_wf hInv)]
  have hseq : s.buffer_header.sequence % 256 = s.buffer_header.sequence :=
    Nat.mod_eq_of_lt hInv.seqLt
  rw [hseq, ← hlen]

/-! ### Sequence numbers across windows -/

theorem send_buffer_getD4 {t : SysState}
    (h4 : t.buffer_header.header = List.replicate 4 0x55) :
    (send_buffer t).getD 4 0 = t.buffer_header.sequence % 256 := by
  rw [send_buffer_eq, serializeHeader_eq h4]
  rfl

theorem runWindows_seq : ∀ (ws : List (List ScanEvent)) (s : SysState), SysInv s →
    (∀ w ∈ ws, ∀ ev ∈ w, EventWF ev) →
    ∀ i, i < ws.length →
      ((runWindows s ws).getD i []).getD 4 0 = (s.buffer_header.sequence + i) % 256
  | [], _, _, _, i, hi => absurd hi (by simp)
  | w :: ws, s, hInv, hwf, i, hi => by
    rw [runWindows]
    have hInv1 : SysInv (w.foldl scan_cb s) := run_inv w s hInv (hwf w (by simp))
    have hseq1 : (w.foldl scan_cb s).buffer_header.sequence =
        s.buffer_header.sequence := (run_fields w s).1
    cases i with
    | zero =>
      rw [List.getD_cons_zero]
      have hb : (sampling_timer_handler (w.foldl scan_cb s)).1 =
          send_buffer (w.foldl scan_cb s) := rfl
      rw [hb, send_buffer_getD4 hInv1.header4, hseq1]
      omega
    | succ i =>
      rw [List.getD_cons_succ]
      have hflush : (sampling_timer_handler (w.foldl scan_cb s)).2 =
          freshWindow (w.foldl scan_cb s).msg_sequence := flush_eq _
      have hInv2 : SysInv (sampling_timer_handler (w.foldl scan_cb s)).2 := by
        rw [hflush]
        exact fresh_inv _
      have ih := runWindows_seq ws _ hInv2 (fun w' hw' => hwf w' (by simp [hw']))
        i (by simpa using hi)
      rw [ih]
      have hseq2 : ((sampling_timer_handler (w.foldl scan_cb s)).2).buffer_header.sequence =
          (w.foldl scan_cb s).msg_sequence % 256 := by
        rw [hflush]
        rfl
      rw [hseq2, hInv1.msgSeq, hseq1]
      omega

/-! ### Hash arithmetic -/

theorem hashStep_eq (h b : Nat) : hashStep h b = (h * 33 + b) % 4294967296 := by
  rw [hashStep, Nat.shiftLeft_eq]
  congr 1

theorem hashStep_mod (x b : Nat) :
    hashStep (x % 4294967296) b = (x * 33 + b) % 4294967296 := by
  rw [hashStep_eq, Nat.add_mod, Nat.mod_mul_mod, ← Nat.add_mod]

/-! ### Claim theorems -/

/-- C2: for every table state and identifier, `find_or_add_device` probes
linearly (step 1, wrapping) from the hashed home slot; on the first
`Occupied` slot storing an equal identifier it returns that record without
modifying the table; on the first non-`Occupied` slot it returns `Full`
(`NULL`) if either the unique-entry counter `n_mac` or the occupied-entry
counter `hash_entries` is at capacity, and otherwise tags the slot
`Occupied`, stores the identifier, zeroes the observation counter,
increments both counters (that is `insertAt`), and returns the new record;
if the probe visits all `HASH_SIZE` slots without stopping, it returns
`Full`. -/
theorem claim_C2 (s : SysState) (mac : List Nat) :
    (∀ k, k < HASH_SIZE →
      (∀ j, j < k → (slotAt s ((hash_mac mac + j) % HASH_SIZE)).state = .occupied ∧
        (slotAt s ((hash_mac mac + j) % HASH_SIZE)).device.addr ≠ mac) →
      (((slotAt s ((hash_mac mac + k) % HASH_SIZE)).state = .occupied ∧
          (slotAt s ((hash_mac mac + k) % HASH_SIZE)).device.addr = mac →
          find_or_add_device s mac = (some ((hash_mac mac + k) % HASH_SIZE), s)) ∧
       ((slotAt s ((hash_mac mac + k) % HASH_SIZE)).state ≠ .occupied →
          (s.buffer_header.n_mac ≥ MAX_DEVICES ∨ s.hash_entries ≥ MAX_DEVICES →
            find_or_add_device s mac = (none, s)) ∧
          (s.buffer_header.n_mac < MAX_DEVICES → s.hash_entries < MAX_DEVICES →
            find_or_add_device s mac =
              (some ((hash_mac mac + k) % HASH_SIZE),
               insertAt s mac ((hash_mac mac + k) % HASH_SIZE)))))) ∧
    ((∀ j, j < HASH_SIZE →
        (slotAt s ((hash_mac mac + j) % HASH_SIZE)).state = .occupied ∧
        (slotAt s ((hash_mac mac + j) % HASH_SIZE)).device.addr ≠ mac) →
      find_or_add_device s mac = (none, s)) := by
  constructor
  · intro k hk hcont
    exact findOrAddGo_stop s mac k HASH_SIZE (hash_mac mac) (hash_mac_lt mac) hk hcont
  · intro hcont
    exact findOrAddGo_exhaust s mac HASH_SIZE (hash_mac mac) (hash_mac_lt mac) hcont

/-- Witness for C2: on the fresh start state the probe for the all-zero MAC
stops at its home slot 0, which is free, and inserts there. -/
theorem claim_C2_witness :
    find_or_add_device startState a0 = (some 0, insertAt startState a0 0) := by
  have h := ((claim_C2 startState a0).1 0 (by norm_num [HASH_SIZE])
    (fun j hj => absurd hj (by omega))).2
  have hfree : (slotAt startState ((hash_mac a0 + 0) % HASH_SIZE)).state ≠
      EntryState.occupied := by decide
  exact (h hfree).2 (by decide) (by decide)

/-- C3: for every incoming observation event, if the window-active flag is
false the event is discarded with no state change; otherwise
`raw_event_count` is incremented unconditionally (mod 2^16), and if the
lookup returns `Full` the observation is dropped with no other state change,
while on success the returned record's `identifier_kind`, `event_kind` and
`signal_strength` are overwritten, `payload_length` is set to
`min(payload length, 31)`, the 31-byte payload is zero-filled then
`payload_length` bytes are copied in, and `observation_count` is
incremented. -/
theorem claim_C3 (s : SysState) (ev : ScanEvent) :
    (s.buffer_active = false → scan_cb s ev = s) ∧
    (s.buffer_active = true →
      (scan_cb s ev).buffer_header.n_adv_raw =
        (s.buffer_header.n_adv_raw + 1) % 65536 ∧
      ((find_or_add_device (bumpRaw s) ev.addr).1 = none →
        scan_cb s ev = bumpRaw s) ∧
      (∀ i s2, find_or_add_device (bumpRaw s) ev.addr = (some i, s2) →
        scan_cb s ev = { s2 with hash_table := s2.hash_table.set i ⟨(slotAt s2 i).state, updateDevice (slotAt s2 i).device ev⟩ } ∧
        (updateDevice (slotAt s2 i).device ev).addr_type = ev.addr_type ∧
        (updateDevice (slotAt s2 i).device ev).adv_type = ev.adv_type ∧
        (updateDevice (slotAt s2 i).device ev).rssi = ev.rssi ∧
        (updateDevice (slotAt s2 i).device ev).data_len = min ev.data.length 31 ∧
        (updateDevice (slotAt s2 i).device ev).data =
          ev.data.take (min ev.data.length 31) ++
            List.replicate (31 - min ev.data.length 31) 0 ∧
        (updateDevice (slotAt s2 i).device ev).n_adv =
          ((slotAt s2 i).device.n_adv + 1) % 256)) := by
  refine ⟨fun h => scan_cb_inactive ev h, fun hact => ⟨scan_raw hact ev, ?_, ?_⟩⟩
  · intro hnone
    rcases hres : find_or_add_device (bumpRaw s) ev.addr with ⟨r, s2⟩
    have hr : r = none := by
      rw [hres] at hnone
      exact hnone
    subst hr
    have hs2 : s2 = bumpRaw s :=
      findOrAddGo_none (bumpRaw s) ev.addr HASH_SIZE (hash_mac ev.addr) s2 hres
    rw [scan_cb_eq_none hact hres, hs2]
  · intro i s2 hres
    exact ⟨scan_cb_eq_some hact hres, rfl, rfl, rfl, rfl, rfl, rfl⟩

/-- Witness for C3: on the active start state the raw event counter becomes
1 after one event. -/
theorem claim_C3_witness :
    (scan_cb startState ev0).buffer_header.n_adv_raw = 1 :=
  ((claim_C3 startState ev0).2 rfl).1

/-- C4: in every reachable state, every byte of an occupied record's payload
at index at least `payload_length` is 0. -/
theorem claim_C4 (s : SysState) (hs : Reachable s) :
    ∀ i, i < HASH_SIZE → (slotAt s i).state = .occupied →
      ∀ k, k < 31 → (slotAt s i).device.data_len ≤ k →
        (slotAt s i).device.data.getD k 0 = 0 := by
  intro i hi hocc k hk hle
  exact ((reachable_inv hs).occWF i hi hocc).2.2.2.2.2.2.2.2.2.2 k hk hle

/-- Witness for C4: after one observation with a 3-byte payload, byte 5 of
the stored payload is 0. -/
theorem claim_C4_witness :
    (slotAt (scan_cb startState ev0) 0).device.data.getD 5 0 = 0 :=
  claim_C4 (scan_cb startState ev0)
    (Reachable.scan ev0 Reachable.init (by decide)) 0 (by norm_num [HASH_SIZE])
    (by decide) 5 (by norm_num) (by decide)

/-- C8: the hasher computes the base-33 accumulator of the 6 MAC bytes in
32-bit arithmetic and masks it with `capacity - 1`, yielding an index below
1024. -/
theorem claim_C8 (mac : List Nat) (h6 : mac.length = 6) :
    hash_mac mac =
      (((((mac.getD 0 0 * 33 + mac.getD 1 0) * 33 + mac.getD 2 0) * 33 +
        mac.getD 3 0) * 33 + mac.getD 4 0) * 33 + mac.getD 5 0) % 4294967296 % 1024 ∧
    hash_mac mac < 1024 := by
  obtain ⟨b0, b1, b2, b3, b4, b5, rfl⟩ := list6_ex h6
  refine ⟨?_, hash_mac_lt _⟩
  rw [hash_mac, and_mask_eq_mod]
  simp only [List.foldl_cons, List.foldl_nil]
  rw [hashStep_eq 0 b0]
  simp only [Nat.zero_mul, Nat.zero_add]
  rw [hashStep_mod b0 b1, hashStep_mod _ b2, hashStep_mod _ b3, hashStep_mod _ b4,
    hashStep_mod _ b5]
  rfl

/-- Witness for C8 at the MAC `[1,2,3,4,5,6]`. -/
theorem claim_C8_witness :
    hash_mac [1, 2, 3, 4, 5, 6] =
      ((((((1 * 33 + 2) * 33 + 3) * 33 + 4) * 33 + 5) * 33 + 6) % 4294967296) % 1024 ∧
    hash_mac [1, 2, 3, 4, 5, 6] < 1024 :=
  claim_C8 [1, 2, 3, 4, 5, 6] (by decide)

/-- C9: whenever `find_or_add_device` returns `Full` (`NULL`), the state is
completely unchanged: no slot and no counter is modified. -/
theorem claim_C9 (s s' : SysState) (mac : List Nat)
    (h : find_or_add_device s mac = (none, s')) : s' = s :=
  findOrAddGo_none s mac HASH_SIZE (hash_mac mac) s' h

/-- Witness for C9: a state whose unique counter is at capacity makes the
lookup fail, and the returned state is the input state. -/
theorem claim_C9_witness :
    find_or_add_device fullState a0 = (none, fullState) ∧ fullState = fullState :=
  ⟨by decide, claim_C9 fullState fullState a0 (by decide)⟩

/-- C1 counterexample: observing the same identifier N = 256 times in one
window (the table never returning `Full` for it) leaves exactly one record,
but its `observation_count` is 0, not N = 256 — the 8-bit counter wrapped. -/
theorem claim_C1_counterexample :
    NoFullA a0 (freshWindow 0) evs256 ∧ countA a0 evs256 = 256 ∧
    (aEntries (evs256.foldl scan_cb (freshWindow 0)) a0).map
      (fun e => e.device.n_adv) = [0] ∧ (0 : Nat) ≠ 256 :=
  ⟨by decide, by decide, by decide, by decide⟩

/-- C1 (amended): for every window and identifier observed N > 0 times
while the window is active, with the table never returning `Full` for it,
exactly one record for that identifier exists, its `observation_count`
equals N mod 256, and its classification fields, signal strength,
payload length and payload equal those of the most recent observation. -/
theorem claim_C1 (q : Nat) (evs : List ScanEvent) (a : List Nat) (evL : ScanEvent)
    (hwf : ∀ ev ∈ evs, EventWF ev) (hnf : NoFullA a (freshWindow q) evs)
    (hN : 0 < countA a evs)
    (hlast : (evs.filter (fun ev => decide (ev.addr = a))).getLast? = some evL) :
    aEntries (evs.foldl scan_cb (freshWindow q)) a =
      [⟨.occupied, mergeObsFinal a evL (countA a evs)⟩] := by
  have hInv := fresh_inv q
  have hA0 := AState_fresh q a
  have htrack := run_track a evs (freshWindow q) none hInv hwf hnf hA0
  obtain ⟨d, hrun, hda, hcnt, hlastm⟩ := runA_none_spec a evs hN
  rw [hrun] at htrack
  have hInvt := run_inv evs (freshWindow q) hInv hwf
  have hsingle := aEntries_of_AState hInvt htrack
  rw [hsingle, device_eq_mergeObsFinal hda hcnt (hlastm evL hlast)]

/-- Witness for C1: two observations of the all-zero MAC leave one record
with count 2 and the fields of the latest observation. -/
theorem claim_C1_witness :
    aEntries (([ev0, ev0]).foldl scan_cb (freshWindow 0)) a0 =
      [⟨.occupied, mergeObsFinal a0 ev0 2⟩] :=
  claim_C1 0 [ev0, ev0] a0 ev0 (by decide) (by decide) (by decide) (by decide)

/-- C5: in every reachable state the number of distinct identifiers in the
table is at most the capacity 1024, and the `unique_count` bytes of the
frame a flush emits decode to the number of `Occupied` slots. -/
theorem claim_C5 (s : SysState) (hs : Reachable s) :
    ((s.hash_table.filter isOcc).map (fun e => e.device.addr)).dedup.length ≤ 1024 ∧
    ((sampling_timer_handler s).1).getD 7 0 +
      256 * ((sampling_timer_handler s).1).getD 8 0 =
      countOccupied s.hash_table := by
  have hInv := reachable_inv hs
  constructor
  · have h1 : ((s.hash_table.filter isOcc).map
        (fun e => e.device.addr)).dedup.length ≤
        ((s.hash_table.filter isOcc).map (fun e => e.device.addr)).length :=
      List.Sublist.length_le (List.dedup_sublist _)
    have h2 : ((s.hash_table.filter isOcc).map (fun e => e.device.addr)).length =
        (s.hash_table.filter isOcc).length := List.length_map _ _
    have h3 : (s.hash_table.filter isOcc).length ≤ s.hash_table.length :=
      List.length_filter_le _ _
    rw [hInv.len] at h3
    have hc : HASH_SIZE = 1024 := rfl
    omega
  · have hb : (sampling_timer_handler s).1 = send_buffer s := rfl
    have hframe : send_buffer s = 0x55 :: 0x55 :: 0x55 :: 0x55 ::
        (s.buffer_header.sequence % 256) :: (s.buffer_header.n_adv_raw % 256) ::
        (s.buffer_header.n_adv_raw / 256 % 256) :: (s.buffer_header.n_mac % 256) ::
        (s.buffer_header.n_mac / 256 % 256) ::
        ((occupiedDevices s).map serializeDevice).flatten := by
      rw [send_buffer_eq, serializeHeader_eq hInv.header4]
      rfl
    rw [hb, hframe]
    have h7 : (0x55 :: 0x55 :: 0x55 :: 0x55 ::
        (s.buffer_header.sequence % 256) :: (s.buffer_header.n_adv_raw % 256) ::
        (s.buffer_header.n_adv_raw / 256 % 256) :: (s.buffer_header.n_mac % 256) ::
        (s.buffer_header.n_mac / 256 % 256) ::
        ((occupiedDevices s).map serializeDevice).flatten).getD 7 0 =
        s.buffer_header.n_mac % 256 := rfl
    have h8 : (0x55 :: 0x55 :: 0x55 :: 0x55 ::
        (s.buffer_header.sequence % 256) :: (s.buffer_header.n_adv_raw % 256) ::
        (s.buffer_header.n_adv_raw / 256 % 256) :: (s.buffer_header.n_mac % 256) ::
        (s.buffer_header.n_mac / 256 % 256) ::
        ((occupiedDevices s).map serializeDevice).flatten).getD 8 0 =
        s.buffer_header.n_mac / 256 % 256 := rfl
    rw [h7, h8, ← hInv.nmac]
    have hlt : s.buffer_header.n_mac < 65536 := by
      have h1 : countOccupied s.hash_table ≤ HASH_SIZE := by
        have := countOccupied_le s.hash_table
        rw [hInv.len] at this
        exact this
      rw [hInv.nmac]
      have h2 : HASH_SIZE = 1024 := rfl
      omega
    omega

/-- Witness for C5 at the start state (empty table, zero counts). -/
theorem claim_C5_witness :
    ((startState.hash_table.filter isOcc).map
      (fun e => e.device.addr)).dedup.length ≤ 1024 ∧
    ((sampling_timer_handler startState).1).getD 7 0 +
      256 * ((sampling_timer_handler startState).1).getD 8 0 =
      countOccupied startState.hash_table :=
  claim_C5 startState Reachable.init

/-- C6: decoding the frame a flush emits, by the documented 9-byte header
plus 42-byte record layout, reconstructs the sync pattern, the header
counts and every occupied record exactly as recorded. -/
theorem claim_C6 (s : SysState) (hs : Reachable s) :
    decodeFrame ((sampling_timer_handler s).1) =
      some (s.buffer_header.sequence, s.buffer_header.n_adv_raw,
        s.buffer_header.n_mac, occupiedDevices s) := by
  have hb : (sampling_timer_handler s).1 = send_buffer s := rfl
  rw [hb, decodeFrame_send (reachable_inv hs)]

/-- Witness for C6: the first flush of the start state decodes to sequence
0, zero counts and no records. -/
theorem claim_C6_witness :
    decodeFrame ((sampling_timer_handler startState).1) = some (0, 0, 0, []) :=
  claim_C6 startState Reachable.init

/-- C7: across consecutive windows run from any reachable state, the
`sequence` byte of the emitted frames takes the values
`s0, s0+1 mod 256, s0+2 mod 256, …`: it is incremented exactly once per
window reset and wraps modulo 256. -/
theorem claim_C7 (s : SysState) (hs : Reachable s) (ws : List (List ScanEvent))
    (hwf : ∀ w ∈ ws, ∀ ev ∈ w, EventWF ev) (i : Nat) (hi : i < ws.length) :
    ((runWindows s ws).getD i []).getD 4 0 =
      (s.buffer_header.sequence + i) % 256 :=
  runWindows_seq ws s (reachable_inv hs) hwf i hi

/-- Witness for C7: two empty windows from the start state emit sequence
bytes 0 and 1; the second frame carries 1. -/
theorem claim_C7_witness :
    ((runWindows startState [[], []]).getD 1 []).getD 4 0 = 1 :=
  claim_C7 startState Reachable.init [[], []] (by decide) 1 (by norm_num)

/-- C10: the counters wrap at their fixed C widths: observing the same
identifier N > 255 times in one window leaves the unique record with
`observation_count = N mod 256` (wrapping, not saturating), and
`raw_event_count` accumulates modulo 2^16. -/
theorem claim_C10 (N : Nat) (hN : 255 < N) (ev : ScanEvent) (hwf : EventWF ev) :
    (aEntries ((List.replicate N ev).foldl scan_cb startState) ev.addr).map
      (fun e => e.device.n_adv) = [N % 256] ∧
    ((List.replicate N ev).foldl scan_cb startState).buffer_header.n_adv_raw =
      N % 65536 := by
  have hInv0 : SysInv startState := by
    rw [startState_eq]
    exact fresh_inv 0
  have hwfall : ∀ e ∈ List.replicate N ev, EventWF e := by
    intro e he
    rw [List.eq_of_mem_replicate he]
    exact hwf
  have haddr : ∀ e ∈ List.replicate N ev, e.addr = ev.addr := by
    intro e he
    rw [List.eq_of_mem_replicate he]
  have hcnt0 : countOccupied startState.hash_table < HASH_SIZE := by
    have h0 : countOccupied startState.hash_table = 0 :=
      countOccupied_replicate_empty _
    rw [h0]
    norm_num [HASH_SIZE]
  have hnf := noFullA_single ev.addr (List.replicate N ev) startState hInv0 hwfall
    haddr (Or.inr hcnt0)
  have hA0 : AState startState ev.addr none := by
    rw [startState_eq]
    exact AState_fresh 0 _
  have htrack := run_track ev.addr (List.replicate N ev) startState none hInv0
    hwfall hnf hA0
  have hcA : countA ev.addr (List.replicate N ev) = N := by
    have hf : (List.replicate N ev).filter (fun e => decide (e.addr = ev.addr)) =
        List.replicate N ev :=
      List.filter_eq_self.mpr (fun e he => by rw [List.eq_of_mem_replicate he]; simp)
    rw [countA, hf, List.length_replicate]
  obtain ⟨d, hrun, hda, hcntd, _⟩ := runA_none_spec ev.addr (List.replicate N ev)
    (by rw [hcA]; omega)
  rw [hrun] at htrack
  have hInvt := run_inv _ _ hInv0 hwfall
  have hsingle := aEntries_of_AState hInvt htrack
  constructor
  · rw [hsingle]
    simp only [List.map_cons, List.map_nil]
    rw [hcntd, hcA]
  · have hraw := run_raw (List.replicate N ev) startState rfl (by decide)
    rw [hraw, List.length_replicate]
    have h0 : startState.buffer_header.n_adv_raw = 0 := rfl
    rw [h0]
    omega

/-- Witness for C10 at N = 256: the record's count wraps to 0 and the raw
counter reads 256. -/
theorem claim_C10_witness :
    (aEntries ((List.replicate 256 ev0).foldl scan_cb startState) ev0.addr).map
      (fun e => e.device.n_adv) = [0] ∧
    ((List.replicate 256 ev0).foldl scan_cb startState).buffer_header.n_adv_raw =
      256 :=
  claim_C10 256 (by norm_num) ev0 (by decide)
